import Mathlib

/-!
# structforms: field introspection and HTML form rendering

A shallow embedding of `base.go` and `main.go` of `perrito666/structforms`.

* Go strings are Lean `String`s.  Go compares strings byte-wise; on valid
  UTF-8 this is the lexicographic order of the code points, which is the
  order `stringLess` below takes on the character lists.
* A Go `map[string]string` is a `GoMap`: a list of entries with pairwise
  distinct keys (`GoMap.WF`).  The order of the list carries no meaning: a
  `range` loop over a map visits the keys in an order chosen by the runtime,
  which is the `RangeOrder` argument of the functions that contain such a loop.
* `reflect` is modelled by `GoType` (what `reflect.TypeOf` exposes) and
  `GoValue` (what `reflect.ValueOf` exposes).
* A Go result pair `(x, err)` is a Lean pair whose second component is
  `none` for a nil error and `some msg` for an error with message `msg`.
-/

set_option maxRecDepth 100000

namespace Structforms

/-! ## Constants (`base.go`, lines 15-35) -/

def TagSecret : String := "secret"
def TagEmail : String := "email"
def TagURL : String := "url"
def TagTel : String := "telephone"

def HTMLFieldText : String := "text"
def HTMLFieldPassword : String := "password"
def HTMLFieldEmail : String := "email"
def HTMLFieldURL : String := "url"
def HTMLFieldTel : String := "tel"
def HTMLFieldNumber : String := "number"

/-- The data handed to the line templates (`htmlInput`, `base.go` 108-112);
the Go field `Type` is spelled `Typ`, `Type` being reserved. -/
structure htmlInput where
  Name : String
  Typ : String
  Value : String

/-- Executing `htmlLineTemplate` (`inputTemplate`): `text/template` writes
each string field as it is. -/
def inputTemplate (field : htmlInput) : String :=
  "<label for=\"" ++ field.Name ++ "\">" ++ field.Name ++ "</label><input name=\""
    ++ field.Name ++ "\" type=\"" ++ field.Typ ++ "\" />"

/-- Executing `htmlLineWithValueTemplate` (`inputWithValueTemplate`). -/
def inputWithValueTemplate (field : htmlInput) : String :=
  "<label for=\"" ++ field.Name ++ "\">" ++ field.Name ++ "</label><input name=\""
    ++ field.Name ++ "\" type=\"" ++ field.Typ ++ "\" value=\"" ++ field.Value ++ "\" />"

/-- The call `fmt.Sprintf(formTemplate, s)`. -/
def formTemplate (s : String) : String :=
  "<form name=\"goform\" method=\"POST\">" ++ s ++ "</form>"

/-- The verb `%q` of `fmt` on a Go identifier: the name between double
quotes (identifiers hold letters, digits and underscores only, none of which
`strconv.Quote` escapes). -/
def fmtQ (s : String) : String := "\"" ++ s ++ "\""

/-- The verb `%d` of `fmt`: base-10 digits, with a leading `-` when negative. -/
def sprintfD (v : Int) : String := toString v

/-! ## Go maps -/

/-- A `map[string]string`, as a list of entries. -/
structure GoMap where
  entries : List (String × String)
deriving DecidableEq, Repr

/-- The keys of a map, in the order of the representation. -/
def GoMap.keys (m : GoMap) : List String := m.entries.map Prod.fst

/-- The invariant of a map: no key occurs twice. -/
def GoMap.WF (m : GoMap) : Prop := m.keys.Nodup

instance (m : GoMap) : Decidable m.WF := inferInstanceAs (Decidable m.keys.Nodup)

/-- The built-in `len(m)`. -/
def GoMap.len (m : GoMap) : Nat := m.entries.length

/-- Lookup in a list of entries. -/
def lookupEntry (k : String) : List (String × String) → Option String
  | [] => none
  | (k', v) :: rest => if k' = k then some v else lookupEntry k rest

/-- The two-valued index expression `v, ok := m[k]`. -/
def GoMap.get? (m : GoMap) (k : String) : Option String := lookupEntry k m.entries

/-- The index expression `m[k]`: the zero value `""` for an absent key. -/
def GoMap.get (m : GoMap) (k : String) : String := (m.get? k).getD ""

/-- Assignment in a list of entries: overwrite the entry of `k`, or add one. -/
def setEntry (k v : String) : List (String × String) → List (String × String)
  | [] => [(k, v)]
  | (k', v') :: rest => if k' = k then (k, v) :: rest else (k', v') :: setEntry k v rest

/-- The assignment `m[k] = v`. -/
def GoMap.set (m : GoMap) (k v : String) : GoMap := ⟨setEntry k v m.entries⟩

/-- The order in which a `range` loop visits the keys of a map. -/
abbrev RangeOrder := GoMap → List String

/-- A `range` loop visits every key of the map exactly once. -/
def RangeOrder.Valid (range : RangeOrder) : Prop := ∀ m : GoMap, (range m).Perm m.keys

/-- The table `GOHTML` (`base.go` 42-48). -/
def GOHTML : GoMap :=
  ⟨[("string", HTMLFieldText), ("int", HTMLFieldNumber), ("float", HTMLFieldNumber),
    ("int64", HTMLFieldNumber), ("float64", HTMLFieldNumber)]⟩

/-! ## The view `reflect` gives of types and values -/

/-- The kinds of `reflect.Kind`. -/
inductive Kind where
  | Invalid | Bool
  | Int | Int8 | Int16 | Int32 | Int64
  | Uint | Uint8 | Uint16 | Uint32 | Uint64 | Uintptr
  | Float32 | Float64 | Complex64 | Complex128
  | Array | Chan | Func | Interface | Map | Ptr | Slice | String | Struct | UnsafePointer
deriving DecidableEq, Repr

/-- The method `Kind.String()`, which `%v` prints. -/
def kindString : Kind → String
  | .Invalid => "invalid" | .Bool => "bool"
  | .Int => "int" | .Int8 => "int8" | .Int16 => "int16" | .Int32 => "int32" | .Int64 => "int64"
  | .Uint => "uint" | .Uint8 => "uint8" | .Uint16 => "uint16" | .Uint32 => "uint32"
  | .Uint64 => "uint64" | .Uintptr => "uintptr"
  | .Float32 => "float32" | .Float64 => "float64"
  | .Complex64 => "complex64" | .Complex128 => "complex128"
  | .Array => "array" | .Chan => "chan" | .Func => "func" | .Interface => "interface"
  | .Map => "map" | .Ptr => "ptr" | .Slice => "slice" | .String => "string"
  | .Struct => "struct" | .UnsafePointer => "unsafe.Pointer"

/-- A struct tag, as its list of `key:"value"` pairs. -/
structure StructTag where
  pairs : List (String × String)
deriving DecidableEq, Repr

/-- The method `StructTag.Get`: the value of the first pair with the key, `""` if none. -/
def StructTag.Get (tag : StructTag) (key : String) : String :=
  (lookupEntry key tag.pairs).getD ""

/-- What `getFields` reads of a `reflect.StructField`: the field's name, the
name of its type (`f.Type.Name()`) and its tag. -/
structure StructField where
  Name : String
  TypeName : String
  Tag : StructTag
deriving DecidableEq, Repr

/-- Signed integer kinds, those `Value.Int` accepts. -/
def isIntKind : Kind → Bool
  | .Int | .Int8 | .Int16 | .Int32 | .Int64 => true
  | _ => false

/-- Unsigned integer kinds, those `Value.Uint` accepts. -/
def isUintKind : Kind → Bool
  | .Uint | .Uint8 | .Uint16 | .Uint32 | .Uint64 | .Uintptr => true
  | _ => false

/-- Floating-point kinds, those `Value.Float` accepts. -/
def isFloatKind : Kind → Bool
  | .Float32 | .Float64 => true
  | _ => false

/-- Kinds whose values carry no payload in this model. -/
def isPlainKind (k : Kind) : Bool :=
  !(isIntKind k || isUintKind k || isFloatKind k || k == Kind.String)

/-- A `float64`, as its IEEE 754 bit pattern. -/
abbrev Float64 := Nat

/-- A `reflect.Value` of a struct field: its kind and, for the kinds
`valueStringer` reads, its content. -/
inductive Value where
  | int (k : Kind) (hk : isIntKind k = true) (v : Int)
  | uint (k : Kind) (hk : isUintKind k = true) (v : Nat)
  | float (k : Kind) (hk : isFloatKind k = true) (v : Float64)
  | str (v : String)
  | plain (k : Kind) (hk : isPlainKind k = true)

/-- The method `Value.Kind()`. -/
def valueKind : Value → Kind
  | .int k _ _ => k
  | .uint k _ _ => k
  | .float k _ _ => k
  | .str _ => Kind.String
  | .plain k _ => k

/-- The method `Value.Int()`. -/
def valueInt : Value → Int
  | .int _ _ v => v
  | _ => 0

/-- The method `Value.Uint()`. -/
def valueUint : Value → Nat
  | .uint _ _ v => v
  | _ => 0

/-- The method `Value.Float()`. -/
def valueFloat : Value → Float64
  | .float _ _ v => v
  | _ => 0

/-- The method `Value.String()` on a value of kind `String`. -/
def valueString : Value → String
  | .str v => v
  | _ => ""

/-- The zero `reflect.Value`, of kind `Invalid`. -/
def zeroValue : Value := .plain Kind.Invalid rfl

/-- A Go type, as far as `getFields` inspects it. -/
inductive GoType where
  | Struct (fields : List StructField)
  | Ptr (elem : GoType)
  | Other (k : Kind) (hk : k ≠ Kind.Struct ∧ k ≠ Kind.Ptr)

/-- The method `Type.Kind()`. -/
def typeKind : GoType → Kind
  | .Struct _ => Kind.Struct
  | .Ptr _ => Kind.Ptr
  | .Other k _ => k

/-- The method `Type.Elem()` of a pointer type. -/
def typeElem : GoType → GoType
  | .Ptr elem => elem
  | t => t

/-- The fields `t.Field(0)`, ..., `t.Field(t.NumField()-1)` of a struct type. -/
def typeFields : GoType → List StructField
  | .Struct fields => fields
  | _ => []

/-- A non-nil value passed as a `POSTFillable`: a struct with the current
values of its fields, a pointer, or a value of another kind. -/
inductive GoValue where
  | Struct (fields : List (StructField × Value))
  | Ptr (elem : GoValue)
  | Other (k : Kind) (hk : k ≠ Kind.Struct ∧ k ≠ Kind.Ptr)

/-- The function `reflect.TypeOf`. -/
def reflectTypeOf : GoValue → GoType
  | .Struct fields => .Struct (fields.map Prod.fst)
  | .Ptr elem => .Ptr (reflectTypeOf elem)
  | .Other k hk => .Other k hk

/-- The kind of a `reflect.ValueOf`. -/
def goValueKind : GoValue → Kind
  | .Struct _ => Kind.Struct
  | .Ptr _ => Kind.Ptr
  | .Other k _ => k

/-- The method `Value.Elem()` of a pointer. -/
def goValueElem : GoValue → GoValue
  | .Ptr elem => elem
  | v => v

/-- The method `Value.FieldByName` on a struct without embedded fields: the
first field with the name, the zero value if there is none. -/
def fieldByName : List (StructField × Value) → String → Value
  | [], _ => zeroValue
  | (f, v) :: rest, name => if f.Name = name then v else fieldByName rest name

/-- The method `Value.FieldByName`. -/
def goValueFieldByName : GoValue → String → Value
  | .Struct fields, name => fieldByName fields name
  | _, _ => zeroValue

/-! ## `getFields` (`base.go` 63-105) -/

/-- The loop of `getFields` (lines 77-103) over the fields still to visit. -/
def getFieldsLoop : List StructField → GoMap → Option GoMap × Option String
  | [], ret => (some ret, none)
  | f :: rest, ret =>
    match GOHTML.get? f.TypeName with
    | none => (none, some ("cannot find an HTML equivalent for " ++ fmtQ f.Name ++ " of type "))
    | some fieldHTMLType =>
      let tag := f.Tag.Get "html"
      let fieldHTMLType :=
        if fieldHTMLType = HTMLFieldText then
          if tag = TagSecret then HTMLFieldPassword
          else if tag = TagEmail then HTMLFieldEmail
          else if tag = TagURL then HTMLFieldURL
          else if tag = TagTel then HTMLFieldTel
          else fieldHTMLType
        else fieldHTMLType
      getFieldsLoop rest (ret.set f.Name fieldHTMLType)

/-- The function `getFields`. -/
def getFields (goType : GoValue) : Option GoMap × Option String :=
  let t := reflectTypeOf goType
  let t := if typeKind t = Kind.Ptr then typeElem t else t
  if typeKind t ≠ Kind.Struct then
    (none, some ("interface must be a struct is " ++ kindString (typeKind t)))
  else
    getFieldsLoop (typeFields t) ⟨[]⟩

/-! ## `doHTML` (`base.go` 116-136) -/

/-- The comparison `sort.StringSlice.Less`: `a < b` on strings. -/
def stringLess (a b : String) : Prop := a.data < b.data

instance : DecidableRel stringLess := fun a b => inferInstanceAs (Decidable (a.data < b.data))

/-- Not greater: `¬ b < a`. -/
def stringLE (a b : String) : Prop := a.data ≤ b.data

instance : DecidableRel stringLE := fun a b => inferInstanceAs (Decidable (a.data ≤ b.data))

/-- The call `sort.Sort(sort.StringSlice(names))`: the names in ascending
order (the result of sorting does not depend on the algorithm, equal strings
being indistinguishable). -/
def sortStrings (names : List String) : List String := names.insertionSort stringLE

/-- The function `doHTML`. -/
def doHTML (range : RangeOrder) (fields : GoMap) : String :=
  let fieldNames := range fields
  let fieldNames := sortStrings fieldNames
  let htmlLines := fieldNames.map fun fieldName =>
    inputTemplate { Name := fieldName, Typ := fields.get fieldName, Value := "" }
  formTemplate (String.intercalate "\n" htmlLines)

/-! ## `valueStringer` and `doFilledForm` (`base.go` 141-198) -/

/-- The function `valueStringer`; `sprintfF` is the verb `%f` of `fmt`. -/
def valueStringer (sprintfF : Float64 → String) (value : Value) : String × Bool :=
  match valueKind value with
  | .Int | .Int8 | .Int16 | .Int32 | .Int64 => (sprintfD (valueInt value), true)
  | .Uint8 | .Uint16 | .Uint32 | .Uint64 => (sprintfD (valueUint value), true)
  | .Float32 | .Float64 => (sprintfF (valueFloat value), true)
  | .String => (valueString value, true)
  | _ => ("", false)

/-- The second loop of `doFilledForm` (lines 182-196): the lines for the
field names still to visit, or the error of the first value that has no string. -/
def doFilledFormLoop (sprintfF : Float64 → String) (fields : GoMap) (t : GoValue) :
    List String → Option (List String) × Option String
  | [] => (some [], none)
  | fieldName :: rest =>
    let fieldType := fields.get fieldName
    match valueStringer sprintfF (goValueFieldByName t fieldName) with
    | (_, false) => (none, some ("cannot determine the value for " ++ fmtQ fieldName))
    | (value, true) =>
      let htmlLine := inputWithValueTemplate { Name := fieldName, Typ := fieldType, Value := value }
      match doFilledFormLoop sprintfF fields t rest with
      | (some htmlLines, _) => (some (htmlLine :: htmlLines), none)
      | (none, err) => (none, err)

/-- The function `doFilledForm`; a nil map reads as the empty map. -/
def doFilledForm (sprintfF : Float64 → String) (range : RangeOrder) (contents : GoValue) :
    String × Option String :=
  let (fields, err) := getFields contents
  match err with
  | some err => ("", some ("cannot obtain fields: " ++ err))
  | none =>
    let fields := fields.getD ⟨[]⟩
    let t := contents
    let t := if goValueKind t = Kind.Ptr then goValueElem t else t
    let fieldNames := range fields
    match doFilledFormLoop sprintfF fields t fieldNames with
    | (some htmlLines, _) => (formTemplate (String.intercalate "\n" htmlLines), none)
    | (none, err) => ("", err)

/-! ## The records of `base_test.go` and `main.go` -/

/-- The type `wrongFormValue`, an `int`, with the value of the test. -/
def wrongFormValue : GoValue := .Other Kind.Int (by decide)

/-- The empty struct `rightForm`. -/
def rightForm : GoValue := .Struct []

/-- The tag `html:"v"`. -/
def htmlTag (v : String) : StructTag := ⟨[("html", v)]⟩

/-- The fields of the struct `formWithFields` (and of `sample`) with the given values. -/
def formFields (FirstName LastName Email Website Phone Password : String) (Age : Int) :
    List (StructField × Value) :=
  [(⟨"FirstName", "string", ⟨[]⟩⟩, .str FirstName),
   (⟨"LastName", "string", ⟨[]⟩⟩, .str LastName),
   (⟨"Email", "string", htmlTag "email"⟩, .str Email),
   (⟨"Website", "string", htmlTag "url"⟩, .str Website),
   (⟨"Phone", "string", htmlTag "telephone"⟩, .str Phone),
   (⟨"Password", "string", htmlTag "secret"⟩, .str Password),
   (⟨"Age", "int", ⟨[]⟩⟩, .int Kind.Int rfl Age)]

/-- A value of the struct `formWithFields`. -/
def formWithFields (FirstName LastName Email Website Phone Password : String) (Age : Int) :
    GoValue :=
  .Struct (formFields FirstName LastName Email Website Phone Password Age)

/-- The map `getFields` returns for `formWithFields`; its entries are those
`TestGetFieldsReturnsFields` expects. -/
def formFieldsMap : GoMap :=
  ⟨[("FirstName", "text"), ("LastName", "text"), ("Email", "email"), ("Website", "url"),
    ("Phone", "tel"), ("Password", "password"), ("Age", "number")]⟩

/-- The value rendered by `TestDoFillHTMLReturnsExpectedHTML`. -/
def testFilledValue : GoValue :=
  formWithFields "Horacio" "Duran" "horacio.duran@gmail.com" "http://perri.to" "+555555555"
    "a big secret" 32

/-- The map `inputMap` of `TestDoHTMLReturnsExpectedHTML`. -/
def testInputMap : GoMap :=
  ⟨[("Email", "email"), ("Website", "url"), ("Phone", "tel"), ("Password", "password"),
    ("Age", "number"), ("FirstName", "text"), ("LastName", "text")]⟩

/-- The string `expectedHTML` of `TestDoHTMLReturnsExpectedHTML`. -/
def expectedHTML : String :=
  "<form name=\"goform\" method=\"POST\"><label for=\"Age\">Age</label><input name=\"Age\" type=\"number\" />\n<label for=\"Email\">Email</label><input name=\"Email\" type=\"email\" />\n<label for=\"FirstName\">FirstName</label><input name=\"FirstName\" type=\"text\" />\n<label for=\"LastName\">LastName</label><input name=\"LastName\" type=\"text\" />\n<label for=\"Password\">Password</label><input name=\"Password\" type=\"password\" />\n<label for=\"Phone\">Phone</label><input name=\"Phone\" type=\"tel\" />\n<label for=\"Website\">Website</label><input name=\"Website\" type=\"url\" /></form>"

/-- The string `expectedHTML` of `TestDoFillHTMLReturnsExpectedHTML`. -/
def expectedFilledHTML : String :=
  "<form name=\"goform\" method=\"POST\"><label for=\"FirstName\">FirstName</label><input name=\"FirstName\" type=\"text\" value=\"Horacio\" />\n<label for=\"LastName\">LastName</label><input name=\"LastName\" type=\"text\" value=\"Duran\" />\n<label for=\"Email\">Email</label><input name=\"Email\" type=\"email\" value=\"horacio.duran@gmail.com\" />\n<label for=\"Website\">Website</label><input name=\"Website\" type=\"url\" value=\"http://perri.to\" />\n<label for=\"Phone\">Phone</label><input name=\"Phone\" type=\"tel\" value=\"+555555555\" />\n<label for=\"Password\">Password</label><input name=\"Password\" type=\"password\" value=\"a big secret\" />\n<label for=\"Age\">Age</label><input name=\"Age\" type=\"number\" value=\"32\" /></form>"

/-- A runtime whose `range` visits the keys in the order of the representation. -/
def rangeInOrder : RangeOrder := fun m => m.keys

/-- A runtime whose `range` starts at the key in position `n` and wraps around. -/
def rangeRotated (n : Nat) : RangeOrder := fun m => m.keys.rotate n

/-! ## `sample` and `ProcessPOST` (`main.go` 8-46) -/

/-- The struct `sample`. -/
structure sample where
  FirstName : String
  LastName : String
  Email : String
  Website : String
  Phone : String
  Password : String
  Age : Int
deriving DecidableEq, Repr

/-- The value of a byte as a decimal digit, as `strconv.ParseUint` reads it in
base 10: `'0'` to `'9'` only. -/
def digitValue (c : Char) : Option Nat :=
  if 48 ≤ c.toNat ∧ c.toNat ≤ 57 then some (c.toNat - 48) else none

/-- The loop of `strconv.ParseUint` in base 10, on unbounded naturals: `none`
at the first byte that is not a digit. -/
def parseUintLoop : List Char → Nat → Option Nat
  | [], n => some n
  | c :: cs, n =>
    match digitValue c with
    | none => none
    | some d => parseUintLoop cs (n * 10 + d)

/-- The call `strconv.ParseInt(s, 10, bitSize)`: `none` for an error (a syntax
error or a value out of the range of `bitSize` bits), the value otherwise. -/
def ParseInt (s : String) (bitSize : Nat) : Option Int :=
  match s.data with
  | [] => none
  | c :: cs =>
    let neg := decide (c = '-')
    let digits := if c = '+' ∨ c = '-' then cs else c :: cs
    if digits = [] then none
    else
      match parseUintLoop digits 0 with
      | none => none
      | some un =>
        let cutoff := 2 ^ (bitSize - 1)
        if !neg && decide (cutoff ≤ un) then none
        else if neg && decide (cutoff < un) then none
        else some (if neg then -(un : Int) else (un : Int))

/-- The method `(*sample).ProcessPOST`: the record after the call and the
error returned; `sprintfQ` is the verb `%q` of `fmt`. -/
def ProcessPOST (sprintfQ : String → String) (s : sample) (post : GoMap) :
    sample × Option String :=
  let s := match post.get? "FirstName" with
    | some value => { s with FirstName := value }
    | none => s
  let s := match post.get? "LastName" with
    | some value => { s with LastName := value }
    | none => s
  let s := match post.get? "Email" with
    | some value => { s with Email := value }
    | none => s
  let s := match post.get? "Website" with
    | some value => { s with Website := value }
    | none => s
  let s := match post.get? "Phone" with
    | some value => { s with Phone := value }
    | none => s
  let s := match post.get? "Password" with
    | some value => { s with Password := value }
    | none => s
  match post.get? "Age" with
  | some value =>
    match ParseInt value 32 with
    | none => (s, some ("unexpected value for Age " ++ sprintfQ value))
    | some i => ({ s with Age := i }, none)
  | none => (s, none)

/-- The fields of a `sample` value, as `reflect` shows them. -/
def sampleFields (s : sample) : List (StructField × Value) :=
  formFields s.FirstName s.LastName s.Email s.Website s.Phone s.Password s.Age

/-- The zero value `sample{}`. -/
def zeroSample : sample := ⟨"", "", "", "", "", "", 0⟩

/-- The record `main` renders with its values. -/
def mainSample : sample :=
  ⟨"Horacio", "Duran", "horacio.duran@gmail.com", "http://perri.to", "+555555555",
    "a big secret", 32⟩

/-! ## Structs with several blank fields

Go lets the blank name `_` be used for more than one field of a struct; it is
the only field name that may repeat, and `reflect` reports it as `"_"`. -/

/-- The fields of `struct { _ string "html:\"secret\""; _ int }`. -/
def blankSecretThenInt : List (StructField × Value) :=
  [(⟨"_", "string", htmlTag "secret"⟩, .str ""), (⟨"_", "int", ⟨[]⟩⟩, .int Kind.Int rfl 0)]

/-- The fields of `struct { _ int; _ int }`. -/
def blankIntPair : List (StructField × Value) :=
  [(⟨"_", "int", ⟨[]⟩⟩, .int Kind.Int rfl 0), (⟨"_", "int", ⟨[]⟩⟩, .int Kind.Int rfl 0)]

/-- The fields of `struct { _ string; _ string }` holding `"a"` and `"b"`. -/
def blankStringPair : List (StructField × Value) :=
  [(⟨"_", "string", ⟨[]⟩⟩, .str "a"), (⟨"_", "string", ⟨[]⟩⟩, .str "b")]

/-- The fields of `struct { Name string; Ok bool; Done bool }`. -/
def withBoolFields : List (StructField × Value) :=
  [(⟨"Name", "string", ⟨[]⟩⟩, .str ""), (⟨"Ok", "bool", ⟨[]⟩⟩, .plain Kind.Bool rfl),
   (⟨"Done", "bool", ⟨[]⟩⟩, .plain Kind.Bool rfl)]

/-! ## Definitions used to state and prove the properties -/

/-- The input type one iteration of the loop of `getFields` computes for a
field (lines 82-100): `none` when `GOHTML` has no entry for the field's type. -/
def fieldHTMLType (f : StructField) : Option String :=
  match GOHTML.get? f.TypeName with
  | none => none
  | some fieldHTMLType =>
    let tag := f.Tag.Get "html"
    some (if fieldHTMLType = HTMLFieldText then
        if tag = TagSecret then HTMLFieldPassword
        else if tag = TagEmail then HTMLFieldEmail
        else if tag = TagURL then HTMLFieldURL
        else if tag = TagTel then HTMLFieldTel
        else fieldHTMLType
      else fieldHTMLType)

/-- The map after the loop of `getFields` has stored the fields `fs` into `ret`. -/
def storeAll (fs : List StructField) (ret : GoMap) : GoMap :=
  fs.foldl (fun m f => m.set f.Name ((fieldHTMLType f).getD "")) ret

/-- The supported set of the specification: `string`, `int`, `int64`, `float`, `float64`. -/
def supportedTypes : List String := ["string", "int", "int64", "float", "float64"]

/-- The numeric types of the specification. -/
def numberTypes : List String := ["int", "int64", "float", "float64"]

/-- The names of the fields of a struct value, in declaration order. -/
def fieldNamesOf (fields : List (StructField × Value)) : List String :=
  fields.map fun fv => fv.1.Name

/-- Dereferencing at most one pointer level. -/
def derefOnce : GoValue → GoValue
  | .Ptr elem => elem
  | v => v

/-- The line the second loop of `doFilledForm` emits for a field name. -/
def filledLine (sprintfF : Float64 → String) (fields : GoMap) (t : GoValue) (n : String) :
    String :=
  inputWithValueTemplate
    { Name := n, Typ := fields.get n,
      Value := (valueStringer sprintfF (goValueFieldByName t n)).1 }

/-- The output of `TestDoFillHTMLReturnsExpectedHTML` when the `range` loop
starts at the second key: the line of `FirstName` comes last. -/
def rotatedFilledHTML : String :=
  "<form name=\"goform\" method=\"POST\"><label for=\"LastName\">LastName</label><input name=\"LastName\" type=\"text\" value=\"Duran\" />\n<label for=\"Email\">Email</label><input name=\"Email\" type=\"email\" value=\"horacio.duran@gmail.com\" />\n<label for=\"Website\">Website</label><input name=\"Website\" type=\"url\" value=\"http://perri.to\" />\n<label for=\"Phone\">Phone</label><input name=\"Phone\" type=\"tel\" value=\"+555555555\" />\n<label for=\"Password\">Password</label><input name=\"Password\" type=\"password\" value=\"a big secret\" />\n<label for=\"Age\">Age</label><input name=\"Age\" type=\"number\" value=\"32\" />\n<label for=\"FirstName\">FirstName</label><input name=\"FirstName\" type=\"text\" value=\"Horacio\" /></form>"

/-- The rendered input types of the specification. -/
def inputTypes : List String := ["text", "password", "email", "url", "tel", "number"]

/-- The kinds for which `valueStringer` is said to report `ok`. -/
def stringableKinds : List Kind :=
  [Kind.Int, Kind.Int8, Kind.Int16, Kind.Int32, Kind.Int64, Kind.Uint8, Kind.Uint16,
   Kind.Uint32, Kind.Uint64, Kind.Float32, Kind.Float64, Kind.String]

/-- The string `v` is a base-10 integer literal that denotes `i`: an optional
sign followed by one or more decimal digits `ds`, most significant first. -/
def denotesDecimal (v : String) (i : Int) : Prop :=
  ∃ (sign : List Char) (ds : List Nat),
    (sign = [] ∨ sign = ['+'] ∨ sign = ['-']) ∧ ds ≠ [] ∧ (∀ d ∈ ds, d < 10) ∧
    v.data = sign ++ ds.map Nat.digitChar ∧
    i = (if sign = ['-'] then -1 else 1) * ((Nat.ofDigits 10 ds.reverse : Nat) : Int)

/-- The string `v` is a base-10 integer literal within the signed 32-bit range. -/
def isInt32Literal (v : String) : Prop :=
  ∃ i : Int, denotesDecimal v i ∧ -2 ^ 31 ≤ i ∧ i < 2 ^ 31

/-- A field declared with one of the builtin types `string`, `int`, `int64`
or `float64`, holding a value of that type. -/
def isBuiltinField (fv : StructField × Value) : Prop :=
  (fv.1.TypeName = "string" ∧ valueKind fv.2 = Kind.String) ∨
  (fv.1.TypeName = "int" ∧ valueKind fv.2 = Kind.Int) ∨
  (fv.1.TypeName = "int64" ∧ valueKind fv.2 = Kind.Int64) ∨
  (fv.1.TypeName = "float64" ∧ valueKind fv.2 = Kind.Float64)

instance : DecidablePred isBuiltinField := fun fv =>
  inferInstanceAs (Decidable (
    (fv.1.TypeName = "string" ∧ valueKind fv.2 = Kind.String) ∨
    (fv.1.TypeName = "int" ∧ valueKind fv.2 = Kind.Int) ∨
    (fv.1.TypeName = "int64" ∧ valueKind fv.2 = Kind.Int64) ∨
    (fv.1.TypeName = "float64" ∧ valueKind fv.2 = Kind.Float64)))

/-- The names of the fields of `sample`. -/
def sampleFieldNames : List String :=
  ["FirstName", "LastName", "Email", "Website", "Phone", "Password", "Age"]

/-- The filled form of `TestDoFillHTMLReturnsExpectedHTML` with its lines
sorted by field name, the order `doHTML` gives. -/
def sortedFilledHTML : String :=
  "<form name=\"goform\" method=\"POST\"><label for=\"Age\">Age</label><input name=\"Age\" type=\"number\" value=\"32\" />\n<label for=\"Email\">Email</label><input name=\"Email\" type=\"email\" value=\"horacio.duran@gmail.com\" />\n<label for=\"FirstName\">FirstName</label><input name=\"FirstName\" type=\"text\" value=\"Horacio\" />\n<label for=\"LastName\">LastName</label><input name=\"LastName\" type=\"text\" value=\"Duran\" />\n<label for=\"Password\">Password</label><input name=\"Password\" type=\"password\" value=\"a big secret\" />\n<label for=\"Phone\">Phone</label><input name=\"Phone\" type=\"tel\" value=\"+555555555\" />\n<label for=\"Website\">Website</label><input name=\"Website\" type=\"url\" value=\"http://perri.to\" /></form>"

/-- A runtime whose `range` visits the keys in ascending order. -/
def rangeSorted : RangeOrder := fun m => sortStrings m.keys

/-- The map that sends each field name of a `sample` to the string
`valueStringer` gives for the value of that field. -/
def renderedPost (sprintfF : Float64 → String) (s : sample) : GoMap :=
  ⟨(sampleFields s).map fun fv => (fv.1.Name, (valueStringer sprintfF fv.2).1)⟩

/-- The record `ProcessPOST` leaves once the string fields are assigned (`main.go` 20-37). -/
def stringsFilled (s : sample) (post : GoMap) : sample :=
  { FirstName := (post.get? "FirstName").getD s.FirstName
    LastName := (post.get? "LastName").getD s.LastName
    Email := (post.get? "Email").getD s.Email
    Website := (post.get? "Website").getD s.Website
    Phone := (post.get? "Phone").getD s.Phone
    Password := (post.get? "Password").getD s.Password
    Age := s.Age }

/-! ## Lemmas on maps -/

theorem lookupEntry_setEntry_self (k v : String) (l : List (String × String)) :
    lookupEntry k (setEntry k v l) = some v := by
  induction l with
  | nil => simp [setEntry, lookupEntry]
  | cons e l ih =>
    obtain ⟨k', v'⟩ := e
    by_cases h : k' = k
    · simp [setEntry, lookupEntry, h]
    · simp [setEntry, lookupEntry, h, ih]

theorem lookupEntry_setEntry_ne {k k' : String} (v : String) (l : List (String × String))
    (hne : k' ≠ k) : lookupEntry k' (setEntry k v l) = lookupEntry k' l := by
  induction l with
  | nil => simp [setEntry, lookupEntry, Ne.symm hne]
  | cons e l ih =>
    obtain ⟨k₁, v₁⟩ := e
    by_cases h : k₁ = k
    · subst h
      simp [setEntry, lookupEntry, Ne.symm hne]
    · by_cases h' : k₁ = k'
      · subst h'
        simp [setEntry, lookupEntry, h]
      · simp [setEntry, lookupEntry, h, h', ih]

theorem mem_keys_setEntry (k v k' : String) (l : List (String × String)) :
    k' ∈ (setEntry k v l).map Prod.fst ↔ k' = k ∨ k' ∈ l.map Prod.fst := by
  induction l with
  | nil => simp [setEntry]
  | cons e l ih =>
    obtain ⟨k₁, v₁⟩ := e
    by_cases h : k₁ = k
    · subst h
      simp [setEntry]
    · simp only [setEntry, h, if_false, List.map_cons, List.mem_cons, ih]
      tauto

theorem nodup_keys_setEntry (k v : String) (l : List (String × String))
    (hl : (l.map Prod.fst).Nodup) : ((setEntry k v l).map Prod.fst).Nodup := by
  induction l with
  | nil => simp [setEntry]
  | cons e l ih =>
    obtain ⟨k₁, v₁⟩ := e
    simp only [List.map_cons, List.nodup_cons] at hl
    by_cases h : k₁ = k
    · subst h
      simpa [setEntry] using hl
    · simp only [setEntry, h, if_false, List.map_cons, List.nodup_cons]
      refine ⟨?_, ih hl.2⟩
      rw [mem_keys_setEntry]
      rintro (h' | h')
      · exact h h'
      · exact hl.1 h'

theorem setEntry_of_not_mem (k v : String) (l : List (String × String))
    (hk : k ∉ l.map Prod.fst) : setEntry k v l = l ++ [(k, v)] := by
  induction l with
  | nil => simp [setEntry]
  | cons e l ih =>
    obtain ⟨k₁, v₁⟩ := e
    simp only [List.map_cons, List.mem_cons, not_or] at hk
    simp [setEntry, Ne.symm hk.1, ih hk.2]

theorem lookupEntry_eq_some_iff {l : List (String × String)} (hl : (l.map Prod.fst).Nodup)
    (k v : String) : lookupEntry k l = some v ↔ (k, v) ∈ l := by
  induction l with
  | nil => simp [lookupEntry]
  | cons e l ih =>
    obtain ⟨k₁, v₁⟩ := e
    simp only [List.map_cons, List.nodup_cons] at hl
    by_cases h : k₁ = k
    · subst h
      simp only [lookupEntry, if_true, Option.some.injEq, List.mem_cons, Prod.mk.injEq, true_and]
      constructor
      · intro h; exact Or.inl h.symm
      · rintro (h | h)
        · exact h.symm
        · exact absurd (List.mem_map_of_mem Prod.fst h) hl.1
    · simp only [lookupEntry, h, if_false, ih hl.2, List.mem_cons, Prod.mk.injEq]
      constructor
      · intro h'; exact Or.inr h'
      · rintro (h' | h')
        · exact absurd h'.1.symm h
        · exact h'

theorem lookupEntry_perm {l₁ l₂ : List (String × String)} (hp : l₁.Perm l₂)
    (hl : (l₁.map Prod.fst).Nodup) (k : String) : lookupEntry k l₁ = lookupEntry k l₂ := by
  have hl₂ : (l₂.map Prod.fst).Nodup := (hp.map Prod.fst).nodup_iff.mp hl
  cases h : lookupEntry k l₂ with
  | some v =>
    rw [lookupEntry_eq_some_iff hl]
    exact hp.mem_iff.mpr ((lookupEntry_eq_some_iff hl₂ k v).mp h)
  | none =>
    cases h₁ : lookupEntry k l₁ with
    | none => rfl
    | some v =>
      have := (lookupEntry_eq_some_iff hl₂ k v).mpr
        (hp.mem_iff.mp ((lookupEntry_eq_some_iff hl k v).mp h₁))
      rw [h] at this
      cases this

theorem map_lookup_keys {l : List (String × String)} (hl : (l.map Prod.fst).Nodup) :
    (l.map Prod.fst).map (fun k => (k, (lookupEntry k l).getD "")) = l := by
  induction l with
  | nil => rfl
  | cons e l ih =>
    obtain ⟨k₁, v₁⟩ := e
    simp only [List.map_cons, List.nodup_cons] at hl
    simp only [List.map_cons, List.map_map, lookupEntry, if_true, Option.getD_some,
      List.cons.injEq, true_and]
    have := ih hl.2
    rw [List.map_map] at this
    conv_rhs => rw [← this]
    apply List.map_congr_left
    intro e he
    have hne : k₁ ≠ e.1 := fun h => hl.1 (h ▸ List.mem_map_of_mem Prod.fst he)
    simp [hne]

/-! ## Lemmas on `getFields` -/

theorem unsupported_message (n : String) :
    "cannot find an HTML equivalent for " ++ fmtQ n ++ " of type " =
      "cannot find an HTML equivalent for \"" ++ n ++ "\" of type " := by
  apply String.ext
  simp only [fmtQ, String.data_append, List.append_assoc]
  rfl

theorem getFieldsLoop_cons (f : StructField) (rest : List StructField) (ret : GoMap) :
    getFieldsLoop (f :: rest) ret =
      match fieldHTMLType f with
      | none => (none, some ("cannot find an HTML equivalent for " ++ fmtQ f.Name ++ " of type "))
      | some ty => getFieldsLoop rest (ret.set f.Name ty) := by
  unfold fieldHTMLType
  rw [getFieldsLoop]
  cases GOHTML.get? f.TypeName <;> rfl

theorem GOHTML_get?_eq_none_iff (n : String) :
    GOHTML.get? n = none ↔ n ∉ supportedTypes := by
  simp only [GOHTML, GoMap.get?, lookupEntry, supportedTypes, List.mem_cons, List.mem_singleton,
    List.not_mem_nil, or_false, not_or]
  constructor
  · intro h
    split_ifs at h with h1 h2 h3 h4 h5
    exact ⟨Ne.symm h1, Ne.symm h2, Ne.symm h4, Ne.symm h3, Ne.symm h5⟩
  · rintro ⟨h1, h2, h3, h4, h5⟩
    simp [Ne.symm h1, Ne.symm h2, Ne.symm h3, Ne.symm h4, Ne.symm h5]

theorem fieldHTMLType_eq_none_iff (f : StructField) :
    fieldHTMLType f = none ↔ f.TypeName ∉ supportedTypes := by
  rw [← GOHTML_get?_eq_none_iff]
  unfold fieldHTMLType
  cases GOHTML.get? f.TypeName <;> simp

theorem fieldHTMLType_number (f : StructField) (hf : f.TypeName ∈ numberTypes) :
    fieldHTMLType f = some HTMLFieldNumber := by
  unfold fieldHTMLType
  simp only [numberTypes, List.mem_cons, List.mem_singleton, List.not_mem_nil, or_false] at hf
  rcases hf with h | h | h | h <;> rw [h] <;> rfl

theorem fieldHTMLType_string (f : StructField) (hf : f.TypeName = "string") :
    fieldHTMLType f = some (
      if f.Tag.Get "html" = "secret" then "password"
      else if f.Tag.Get "html" = "email" then "email"
      else if f.Tag.Get "html" = "url" then "url"
      else if f.Tag.Get "html" = "telephone" then "tel"
      else "text") := by
  unfold fieldHTMLType
  rw [hf]
  rfl

theorem getFieldsLoop_ok (fs : List StructField) (ret : GoMap)
    (h : ∀ f ∈ fs, f.TypeName ∈ supportedTypes) :
    getFieldsLoop fs ret = (some (storeAll fs ret), none) := by
  induction fs generalizing ret with
  | nil => rfl
  | cons f fs ih =>
    have hf : fieldHTMLType f ≠ none := fun hn =>
      (fieldHTMLType_eq_none_iff f).mp hn (h f (List.mem_cons_self _ _))
    rw [getFieldsLoop_cons]
    cases hty : fieldHTMLType f with
    | none => exact absurd hty hf
    | some ty =>
      simp only
      rw [ih _ (fun g hg => h g (List.mem_cons_of_mem _ hg))]
      simp [storeAll, hty]

theorem getFieldsLoop_err (pre : List StructField) (f : StructField) (post : List StructField)
    (ret : GoMap) (hpre : ∀ g ∈ pre, g.TypeName ∈ supportedTypes)
    (hf : f.TypeName ∉ supportedTypes) :
    getFieldsLoop (pre ++ f :: post) ret =
      (none, some ("cannot find an HTML equivalent for " ++ fmtQ f.Name ++ " of type ")) := by
  induction pre generalizing ret with
  | nil =>
    rw [List.nil_append, getFieldsLoop_cons, (fieldHTMLType_eq_none_iff f).mpr hf]
  | cons g pre ih =>
    have hg : fieldHTMLType g ≠ none := fun hn =>
      (fieldHTMLType_eq_none_iff g).mp hn (hpre g (List.mem_cons_self _ _))
    rw [List.cons_append, getFieldsLoop_cons]
    cases hty : fieldHTMLType g with
    | none => exact absurd hty hg
    | some ty => exact ih _ (fun x hx => hpre x (List.mem_cons_of_mem _ hx))

/-- Splitting a list at its first element outside the supported set. -/
theorem exists_first_unsupported (fs : List StructField)
    (h : ∃ f ∈ fs, f.TypeName ∉ supportedTypes) :
    ∃ pre f post, fs = pre ++ f :: post ∧ (∀ g ∈ pre, g.TypeName ∈ supportedTypes) ∧
      f.TypeName ∉ supportedTypes := by
  induction fs with
  | nil => simp at h
  | cons g fs ih =>
    by_cases hg : g.TypeName ∈ supportedTypes
    · obtain ⟨f, hf, hfu⟩ := h
      have hf' : f ∈ fs := by
        rcases List.mem_cons.mp hf with rfl | hf'
        · exact absurd hg hfu
        · exact hf'
      obtain ⟨pre, f', post, rfl, hpre, hf'u⟩ := ih ⟨f, hf', hfu⟩
      refine ⟨g :: pre, f', post, rfl, ?_, hf'u⟩
      intro x hx
      rcases List.mem_cons.mp hx with rfl | hx
      · exact hg
      · exact hpre x hx
    · exact ⟨[], g, fs, rfl, by simp, hg⟩

theorem storeAll_cons (f : StructField) (fs : List StructField) (ret : GoMap) :
    storeAll (f :: fs) ret = storeAll fs (ret.set f.Name ((fieldHTMLType f).getD "")) := rfl

theorem storeAll_append (pre post : List StructField) (ret : GoMap) :
    storeAll (pre ++ post) ret = storeAll post (storeAll pre ret) := by
  simp [storeAll, List.foldl_append]

theorem storeAll_get?_of_not_mem (fs : List StructField) (ret : GoMap) (k : String)
    (hk : ∀ g ∈ fs, g.Name ≠ k) : (storeAll fs ret).get? k = ret.get? k := by
  induction fs generalizing ret with
  | nil => rfl
  | cons f fs ih =>
    rw [storeAll_cons, ih _ (fun g hg => hk g (List.mem_cons_of_mem _ hg))]
    exact lookupEntry_setEntry_ne _ _ (Ne.symm (hk f (List.mem_cons_self _ _)))

theorem storeAll_get?_last (pre : List StructField) (f : StructField) (post : List StructField)
    (ret : GoMap) (hpost : ∀ g ∈ post, g.Name ≠ f.Name) :
    (storeAll (pre ++ f :: post) ret).get? f.Name = some ((fieldHTMLType f).getD "") := by
  rw [storeAll_append, storeAll_cons, storeAll_get?_of_not_mem _ _ _ hpost]
  exact lookupEntry_setEntry_self _ _ _

theorem mem_keys_storeAll (fs : List StructField) (ret : GoMap) (k : String) :
    k ∈ (storeAll fs ret).keys ↔ k ∈ ret.keys ∨ k ∈ fs.map StructField.Name := by
  induction fs generalizing ret with
  | nil => simp [storeAll]
  | cons f fs ih =>
    rw [storeAll_cons, ih]
    simp only [GoMap.keys, GoMap.set, mem_keys_setEntry, List.map_cons, List.mem_cons]
    tauto

theorem wf_storeAll (fs : List StructField) (ret : GoMap) (hret : ret.WF) :
    (storeAll fs ret).WF := by
  induction fs generalizing ret with
  | nil => exact hret
  | cons f fs ih =>
    rw [storeAll_cons]
    exact ih _ (nodup_keys_setEntry _ _ _ hret)

theorem storeAll_of_nodup (fs : List StructField) (ret : GoMap)
    (hnd : (fs.map StructField.Name).Nodup) (hdis : ∀ f ∈ fs, f.Name ∉ ret.keys) :
    storeAll fs ret =
      ⟨ret.entries ++ fs.map fun f => (f.Name, (fieldHTMLType f).getD "")⟩ := by
  induction fs generalizing ret with
  | nil => simp [storeAll]
  | cons f fs ih =>
    simp only [List.map_cons, List.nodup_cons] at hnd
    have hf : f.Name ∉ ret.keys := hdis f (List.mem_cons_self _ _)
    rw [storeAll_cons, ih _ hnd.2]
    · simp [GoMap.set, setEntry_of_not_mem _ _ _ hf]
    · intro g hg
      simp only [GoMap.keys, GoMap.set, mem_keys_setEntry, not_or]
      refine ⟨?_, hdis g (List.mem_cons_of_mem _ hg)⟩
      intro h
      exact hnd.1 (h ▸ List.mem_map_of_mem StructField.Name hg)

theorem getFields_struct (fields : List (StructField × Value)) :
    getFields (.Struct fields) = getFieldsLoop (fields.map Prod.fst) ⟨[]⟩ := by
  simp [getFields, reflectTypeOf, typeKind, typeFields]

/-! ## C1-C6: `getFields` -/

/-- C1 as stated fails on a struct with two blank fields: in
`struct { _ string "html:\"secret\""; _ int }` every field has a supported
type and the first is a string field tagged `secret`, yet `getFields` maps its
name to `"number"`, the type of the later field of the same name. -/
theorem getFields_blank_fields_last_wins :
    (∀ fv ∈ blankSecretThenInt, fv.1.TypeName ∈ supportedTypes) ∧
    ∃ fv ∈ blankSecretThenInt, fv.1.TypeName = "string" ∧ fv.1.Tag.Get "html" = "secret" ∧
      ∃ m, getFields (.Struct blankSecretThenInt) = (some m, none) ∧
        m.get? fv.1.Name = some "number" ∧ m.get? fv.1.Name ≠ some "password" :=
  ⟨by decide, _, List.mem_cons_self _ _, rfl, rfl, _, rfl, rfl, by decide⟩

/-- C1 (amended): for every record all of whose fields have a supported type,
`getFields` succeeds and maps each field that no later field shares its name
with (every field, when the names are pairwise distinct) as documented: a
string field tagged `secret`, `email`, `url` or `telephone` to `"password"`,
`"email"`, `"url"` or `"tel"`, an untagged string field to `"text"`, and an
`int`, `int64`, `float` or `float64` field to `"number"`. -/
theorem getFields_type_mapping (pre : List (StructField × Value)) (fv : StructField × Value)
    (post : List (StructField × Value))
    (hsup : ∀ g ∈ pre ++ fv :: post, g.1.TypeName ∈ supportedTypes)
    (hlast : ∀ g ∈ post, g.1.Name ≠ fv.1.Name) :
    ∃ m, getFields (.Struct (pre ++ fv :: post)) = (some m, none) ∧
      (fv.1.TypeName = "string" → fv.1.Tag.Get "html" = "secret" →
        m.get? fv.1.Name = some "password") ∧
      (fv.1.TypeName = "string" → fv.1.Tag.Get "html" = "email" →
        m.get? fv.1.Name = some "email") ∧
      (fv.1.TypeName = "string" → fv.1.Tag.Get "html" = "url" →
        m.get? fv.1.Name = some "url") ∧
      (fv.1.TypeName = "string" → fv.1.Tag.Get "html" = "telephone" →
        m.get? fv.1.Name = some "tel") ∧
      (fv.1.TypeName = "string" → fv.1.Tag.Get "html" = "" →
        m.get? fv.1.Name = some "text") ∧
      (fv.1.TypeName ∈ ["int", "int64", "float", "float64"] →
        m.get? fv.1.Name = some "number") := by
  have hok := getFieldsLoop_ok ((pre ++ fv :: post).map Prod.fst) ⟨[]⟩ (by
    intro f hf
    obtain ⟨g, hg, rfl⟩ := List.mem_map.mp hf
    exact hsup g hg)
  have hget : (storeAll ((pre ++ fv :: post).map Prod.fst) ⟨[]⟩).get? fv.1.Name =
      some ((fieldHTMLType fv.1).getD "") := by
    rw [List.map_append, List.map_cons]
    apply storeAll_get?_last
    intro f hf
    obtain ⟨g, hg, rfl⟩ := List.mem_map.mp hf
    exact hlast g hg
  refine ⟨_, (getFields_struct _).trans hok, ?_, ?_, ?_, ?_, ?_, ?_⟩
  · intro hty htag
    rw [hget, fieldHTMLType_string _ hty, htag]; rfl
  · intro hty htag
    rw [hget, fieldHTMLType_string _ hty, htag]; rfl
  · intro hty htag
    rw [hget, fieldHTMLType_string _ hty, htag]; rfl
  · intro hty htag
    rw [hget, fieldHTMLType_string _ hty, htag]; rfl
  · intro hty htag
    rw [hget, fieldHTMLType_string _ hty, htag]; rfl
  · intro hty
    rw [hget, fieldHTMLType_number _ hty]; rfl

/-- C1, on `formWithFields`: the theorem at the field `Phone`, and the whole
map of `TestGetFieldsReturnsFields`. -/
theorem getFields_type_mapping_witness :
    (∃ m, getFields (formWithFields "" "" "" "" "" "" 0) = (some m, none) ∧
      m.get? "Phone" = some "tel") ∧
    getFields (formWithFields "" "" "" "" "" "" 0) = (some formFieldsMap, none) := by
  refine ⟨?_, by decide⟩
  obtain ⟨m, hm, h⟩ := getFields_type_mapping
    [(⟨"FirstName", "string", ⟨[]⟩⟩, .str ""), (⟨"LastName", "string", ⟨[]⟩⟩, .str ""),
     (⟨"Email", "string", htmlTag "email"⟩, .str ""),
     (⟨"Website", "string", htmlTag "url"⟩, .str "")]
    (⟨"Phone", "string", htmlTag "telephone"⟩, .str "")
    [(⟨"Password", "string", htmlTag "secret"⟩, .str ""),
     (⟨"Age", "int", ⟨[]⟩⟩, .int Kind.Int rfl 0)]
    (by decide) (by decide)
  exact ⟨m, hm, h.2.2.2.1 rfl rfl⟩

/-- C2 as stated fails on `struct { _ int; _ int }`: `getFields` succeeds and
returns a map with one entry, while the struct has two fields. -/
theorem getFields_blank_fields_one_entry :
    ∃ m, getFields (.Struct blankIntPair) = (some m, none) ∧ m.len = 1 ∧
      blankIntPair.length = 2 :=
  ⟨_, rfl, rfl, rfl⟩

/-- C2 (amended): for every record on which `getFields` succeeds, the key set
of the returned map is the set of the record's field names, no key occurs
twice, and the size of the map is the number of distinct field names; it is the
number of fields whenever the field names are pairwise distinct. -/
theorem getFields_keys (fields : List (StructField × Value)) (m : GoMap)
    (h : getFields (.Struct fields) = (some m, none)) :
    (∀ k, k ∈ m.keys ↔ k ∈ fieldNamesOf fields) ∧ m.WF ∧
      m.len = (fieldNamesOf fields).dedup.length ∧
      ((fieldNamesOf fields).Nodup → m.len = fields.length) := by
  rw [getFields_struct] at h
  have hsup : ∀ f ∈ fields.map Prod.fst, f.TypeName ∈ supportedTypes := by
    by_contra hcon
    push_neg at hcon
    obtain ⟨pre, f, post, hsplit, hpre, hf⟩ := exists_first_unsupported _ hcon
    rw [hsplit, getFieldsLoop_err pre f post _ hpre hf] at h
    cases h
  rw [getFieldsLoop_ok _ _ hsup] at h
  have hm : storeAll (fields.map Prod.fst) ⟨[]⟩ = m := by
    injection h with h1 _
    exact Option.some.inj h1
  have hnames : (fields.map Prod.fst).map StructField.Name = fieldNamesOf fields := by
    simp [fieldNamesOf, List.map_map, Function.comp_def]
  have hkeys : ∀ k, k ∈ m.keys ↔ k ∈ fieldNamesOf fields := by
    intro k
    rw [← hm, mem_keys_storeAll, hnames]
    simp [GoMap.keys]
  have hwf : m.WF := by
    rw [← hm]
    exact wf_storeAll _ _ (by simp [GoMap.WF, GoMap.keys])
  have hlen : m.len = (fieldNamesOf fields).dedup.length := by
    have hp : m.keys.Perm (fieldNamesOf fields).dedup :=
      (List.perm_ext_iff_of_nodup hwf (List.nodup_dedup _)).mpr (by
        intro k
        rw [hkeys, List.mem_dedup])
    have := hp.length_eq
    simpa [GoMap.keys, GoMap.len] using this
  refine ⟨hkeys, hwf, hlen, ?_⟩
  intro hnd
  rw [hlen, hnd.dedup]
  simp [fieldNamesOf]

/-- C2, on `formWithFields` (7 entries) and on the empty struct `rightForm` (none). -/
theorem getFields_keys_witness :
    (getFields (formWithFields "" "" "" "" "" "" 0) = (some formFieldsMap, none) ∧
      formFieldsMap.len = 7 ∧
      ∀ k, k ∈ formFieldsMap.keys ↔
        k ∈ ["FirstName", "LastName", "Email", "Website", "Phone", "Password", "Age"]) ∧
    getFields rightForm = (some ⟨[]⟩, none) ∧ GoMap.len ⟨[]⟩ = 0 :=
  ⟨⟨rfl, (getFields_keys (formFields "" "" "" "" "" "" 0) formFieldsMap rfl).2.2.2 (by decide),
    (getFields_keys (formFields "" "" "" "" "" "" 0) formFieldsMap rfl).1⟩,
    rfl, (getFields_keys [] ⟨[]⟩ rfl).2.2.2 (by decide)⟩

/-- C3: the tag is consulted only when the default type is `"text"`. For every
field whose type is `int`, `int64`, `float` or `float64`, whatever its tag
(`secret`, `email`, `url` and `telephone` included), the iteration of the loop
of `getFields` for that field stores `"number"` under the field's name, and
`getFields` on the struct made of that field alone returns the map with that
single entry. -/
theorem getFields_number_ignores_tag (f : StructField) (hf : f.TypeName ∈ numberTypes) :
    (∀ rest ret, getFieldsLoop (f :: rest) ret =
      getFieldsLoop rest (ret.set f.Name "number")) ∧
    ∀ v, getFields (.Struct [(f, v)]) = (some ⟨[(f.Name, "number")]⟩, none) := by
  have hstep : ∀ rest ret, getFieldsLoop (f :: rest) ret =
      getFieldsLoop rest (ret.set f.Name "number") := by
    intro rest ret
    rw [getFieldsLoop_cons, fieldHTMLType_number f hf]
    rfl
  refine ⟨hstep, fun v => ?_⟩
  rw [getFields_struct, List.map_cons, List.map_nil, hstep]
  rfl

/-- C3, on `int` fields tagged `secret` and `telephone`. -/
theorem getFields_number_ignores_tag_witness :
    getFields (.Struct [(⟨"Age", "int", htmlTag "secret"⟩, .int Kind.Int rfl 32)]) =
      (some ⟨[("Age", "number")]⟩, none) ∧
    getFields (.Struct [(⟨"Age", "int", htmlTag "telephone"⟩, .int Kind.Int rfl 32)]) =
      (some ⟨[("Age", "number")]⟩, none) :=
  ⟨(getFields_number_ignores_tag ⟨"Age", "int", htmlTag "secret"⟩ (by decide)).2 _,
   (getFields_number_ignores_tag ⟨"Age", "int", htmlTag "telephone"⟩ (by decide)).2 _⟩

/-- C4: unrecognized tags are ignored. For every string field whose `html` tag
is none of `secret`, `email`, `url`, `telephone` (the empty or absent tag
included), the iteration of the loop of `getFields` for that field raises no
error and stores `"text"` under the field's name, and `getFields` on the struct
made of that field alone returns the map with that single entry and no error. -/
theorem getFields_unrecognized_tag (f : StructField) (hty : f.TypeName = "string")
    (htag : f.Tag.Get "html" ∉ ["secret", "email", "url", "telephone"]) :
    (∀ rest ret, getFieldsLoop (f :: rest) ret =
      getFieldsLoop rest (ret.set f.Name "text")) ∧
    ∀ v, getFields (.Struct [(f, v)]) = (some ⟨[(f.Name, "text")]⟩, none) := by
  simp only [List.mem_cons, List.mem_singleton, List.not_mem_nil, or_false, not_or] at htag
  obtain ⟨h1, h2, h3, h4⟩ := htag
  have hstep : ∀ rest ret, getFieldsLoop (f :: rest) ret =
      getFieldsLoop rest (ret.set f.Name "text") := by
    intro rest ret
    rw [getFieldsLoop_cons, fieldHTMLType_string f hty, if_neg h1, if_neg h2, if_neg h3,
      if_neg h4]
  refine ⟨hstep, fun v => ?_⟩
  rw [getFields_struct, List.map_cons, List.map_nil, hstep]
  rfl

/-- C4, on string fields tagged `color` and not tagged at all. -/
theorem getFields_unrecognized_tag_witness :
    getFields (.Struct [(⟨"Shade", "string", htmlTag "color"⟩, .str "red")]) =
      (some ⟨[("Shade", "text")]⟩, none) ∧
    getFields (.Struct [(⟨"Shade", "string", ⟨[]⟩⟩, .str "red")]) =
      (some ⟨[("Shade", "text")]⟩, none) :=
  ⟨(getFields_unrecognized_tag ⟨"Shade", "string", htmlTag "color"⟩ rfl (by decide)).2 _,
   (getFields_unrecognized_tag ⟨"Shade", "string", ⟨[]⟩⟩ rfl (by decide)).2 _⟩

/-- C5: `getFields` on a record returns an error exactly when some field has a
type outside the supported set; it then returns no map, and the message of the
error names, between quotes, the first such field in declaration order. -/
theorem getFields_error_iff (fields : List (StructField × Value)) :
    ((getFields (.Struct fields)).2 ≠ none ↔
      ∃ fv ∈ fields, fv.1.TypeName ∉ supportedTypes) ∧
    ((getFields (.Struct fields)).2 ≠ none → (getFields (.Struct fields)).1 = none) ∧
    ∀ pre fv post, fields = pre ++ fv :: post →
      (∀ g ∈ pre, g.1.TypeName ∈ supportedTypes) → fv.1.TypeName ∉ supportedTypes →
      getFields (.Struct fields) =
        (none, some ("cannot find an HTML equivalent for \"" ++ fv.1.Name ++ "\" of type ")) := by
  have hfirst : ∀ pre fv post, fields = pre ++ fv :: post →
      (∀ g ∈ pre, g.1.TypeName ∈ supportedTypes) → fv.1.TypeName ∉ supportedTypes →
      getFields (.Struct fields) =
        (none, some ("cannot find an HTML equivalent for \"" ++ fv.1.Name ++ "\" of type ")) := by
    intro pre fv post hsplit hpre hfv
    rw [getFields_struct, hsplit, List.map_append, List.map_cons, ← unsupported_message]
    apply getFieldsLoop_err _ _ _ _ _ hfv
    intro f hf
    obtain ⟨g, hg, rfl⟩ := List.mem_map.mp hf
    exact hpre g hg
  by_cases hsup : ∀ fv ∈ fields, fv.1.TypeName ∈ supportedTypes
  · have hok := getFieldsLoop_ok (fields.map Prod.fst) ⟨[]⟩ (by
      intro f hf
      obtain ⟨g, hg, rfl⟩ := List.mem_map.mp hf
      exact hsup g hg)
    rw [← getFields_struct] at hok
    refine ⟨?_, ?_, hfirst⟩
    · rw [hok]
      constructor
      · intro h; exact absurd rfl h
      · rintro ⟨fv, hfv, hn⟩; exact absurd (hsup fv hfv) hn
    · rw [hok]
      intro h; exact absurd rfl h
  · push_neg at hsup
    have hex : ∃ f ∈ fields.map Prod.fst, f.TypeName ∉ supportedTypes := by
      obtain ⟨fv, hfv, hn⟩ := hsup
      exact ⟨fv.1, List.mem_map_of_mem Prod.fst hfv, hn⟩
    obtain ⟨pre, f, post, hsplit, hpre, hf⟩ := exists_first_unsupported _ hex
    have herr := getFieldsLoop_err pre f post ⟨[]⟩ hpre hf
    rw [← hsplit, ← getFields_struct] at herr
    refine ⟨?_, ?_, hfirst⟩
    · rw [herr]
      exact ⟨fun _ => hsup, fun _ => by simp⟩
    · rw [herr]
      intro _; rfl

/-- C5, on `struct { Name string; Ok bool; Done bool }`: the error names `Ok`. -/
theorem getFields_error_iff_witness :
    (getFields (.Struct withBoolFields)).2 ≠ none ∧
    getFields (.Struct withBoolFields) =
      (none, some "cannot find an HTML equivalent for \"Ok\" of type ") :=
  ⟨(getFields_error_iff withBoolFields).1.mpr
      ⟨(⟨"Ok", "bool", ⟨[]⟩⟩, .plain Kind.Bool rfl), by simp [withBoolFields], by decide⟩,
   (getFields_error_iff withBoolFields).2.2
      [(⟨"Name", "string", ⟨[]⟩⟩, .str "")] (⟨"Ok", "bool", ⟨[]⟩⟩, .plain Kind.Bool rfl)
      [(⟨"Done", "bool", ⟨[]⟩⟩, .plain Kind.Bool rfl)] rfl (by decide) (by decide)⟩

/-- C6: for every input whose type, after dereferencing at most one pointer
level, is not a struct, `getFields` returns no map and the error
`interface must be a struct is K`, `K` being the name of the kind reached. -/
theorem getFields_not_struct (goType : GoValue)
    (h : goValueKind (derefOnce goType) ≠ Kind.Struct) :
    getFields goType =
      (none, some ("interface must be a struct is " ++
        kindString (goValueKind (derefOnce goType)))) := by
  cases goType with
  | Struct fields => exact absurd rfl h
  | Ptr elem =>
    cases elem with
    | Struct fields => exact absurd rfl h
    | Ptr e => rfl
    | Other k hk =>
      have hk1 : k ≠ Kind.Struct := hk.1
      simp [getFields, reflectTypeOf, typeKind, typeElem, derefOnce, goValueKind, hk1]
  | Other k hk =>
    have hk1 : k ≠ Kind.Struct := hk.1
    have hk2 : k ≠ Kind.Ptr := hk.2
    simp [getFields, reflectTypeOf, typeKind, derefOnce, goValueKind, hk1, hk2]

/-- C6, on `wrongFormValue` (an `int`) and on a pointer to a pointer to a struct. -/
theorem getFields_not_struct_witness :
    getFields wrongFormValue = (none, some "interface must be a struct is int") ∧
    getFields (.Ptr (.Ptr rightForm)) = (none, some "interface must be a struct is ptr") :=
  ⟨getFields_not_struct wrongFormValue (by decide),
   getFields_not_struct (.Ptr (.Ptr rightForm)) (by decide)⟩

/-! ## Lemmas on sorting -/

theorem stringLE_total (a b : String) : stringLE a b ∨ stringLE b a := le_total a.data b.data

theorem stringLE_trans {a b c : String} (h₁ : stringLE a b) (h₂ : stringLE b c) :
    stringLE a c := @le_trans (List Char) _ _ _ _ h₁ h₂

theorem stringLE_antisymm {a b : String} (h₁ : stringLE a b) (h₂ : stringLE b a) : a = b :=
  String.ext (@le_antisymm (List Char) _ _ _ h₁ h₂)

theorem stringLess_of_le_of_ne {a b : String} (h : stringLE a b) (hne : a ≠ b) :
    stringLess a b :=
  @lt_of_le_of_ne (List Char) _ _ _ h (fun hd => hne (String.ext hd))

theorem sortStrings_perm (l : List String) : (sortStrings l).Perm l :=
  List.perm_insertionSort _ l

theorem sortStrings_sorted (l : List String) : (sortStrings l).Pairwise stringLE := by
  haveI : IsTotal String stringLE := ⟨stringLE_total⟩
  haveI : IsTrans String stringLE := ⟨fun _ _ _ => stringLE_trans⟩
  exact List.sorted_insertionSort stringLE l

theorem sortStrings_eq_of_perm {l₁ l₂ : List String} (hp : l₁.Perm l₂) :
    sortStrings l₁ = sortStrings l₂ := by
  haveI : IsAntisymm String stringLE := ⟨fun _ _ => stringLE_antisymm⟩
  exact List.eq_of_perm_of_sorted
    (((sortStrings_perm l₁).trans hp).trans (sortStrings_perm l₂).symm)
    (sortStrings_sorted l₁) (sortStrings_sorted l₂)

theorem sortStrings_strict (l : List String) (hl : l.Nodup) :
    (sortStrings l).Pairwise stringLess := by
  have hnd : (sortStrings l).Nodup := (sortStrings_perm l).nodup_iff.mpr hl
  have := (sortStrings_sorted l).and hnd
  exact this.imp fun h => stringLess_of_le_of_ne h.1 h.2

theorem rangeRotated_valid (n : Nat) : (rangeRotated n).Valid :=
  fun m => List.rotate_perm m.keys n

theorem rangeInOrder_valid : rangeInOrder.Valid := fun _ => List.Perm.refl _

/-! ## C7-C8: `doHTML` -/

/-- C7: for every field mapping, `doHTML` returns the opening `<form>` tag,
then `L`, then `</form>`, where `L` joins with `"\n"` one line
`<label for="N">N</label><input name="N" type="T" />` per entry `N ↦ T` of the
mapping, the lines being in strictly ascending order of field name; for the
empty mapping `L` is empty. -/
theorem doHTML_sorted_lines (range : RangeOrder) (hrange : range.Valid) (fields : GoMap)
    (hwf : fields.WF) :
    (∃ es : List (String × String), es.Perm fields.entries ∧
      es.Pairwise (fun a b => stringLess a.1 b.1) ∧
      doHTML range fields =
        "<form name=\"goform\" method=\"POST\">" ++
          String.intercalate "\n" (es.map fun e =>
            "<label for=\"" ++ e.1 ++ "\">" ++ e.1 ++ "</label><input name=\""
              ++ e.1 ++ "\" type=\"" ++ e.2 ++ "\" />") ++ "</form>") ∧
    (fields.entries = [] →
      doHTML range fields = "<form name=\"goform\" method=\"POST\"></form>") := by
  have hperm : (sortStrings (range fields)).Perm fields.keys :=
    (sortStrings_perm _).trans (hrange fields)
  constructor
  · refine ⟨(sortStrings (range fields)).map (fun k => (k, fields.get k)), ?_, ?_, ?_⟩
    · have := hperm.map (fun k => (k, fields.get k))
      have hmap : fields.keys.map (fun k => (k, fields.get k)) = fields.entries :=
        map_lookup_keys hwf
      rwa [hmap] at this
    · rw [List.pairwise_map]
      exact sortStrings_strict _ ((hrange fields).nodup_iff.mpr hwf)
    · simp only [doHTML, formTemplate, inputTemplate, List.map_map, Function.comp_def]
  · intro hempty
    have hnil : sortStrings (range fields) = [] := by
      apply List.Perm.eq_nil
      rw [show (([] : List String)) = fields.keys by simp [GoMap.keys, hempty]]
      exact hperm
    simp only [doHTML, hnil]
    rfl

/-- C7, on the map of `TestDoHTMLReturnsExpectedHTML`, visited in two different orders. -/
theorem doHTML_sorted_lines_witness :
    (∃ es : List (String × String), es.Perm testInputMap.entries ∧
      es.Pairwise (fun a b => stringLess a.1 b.1) ∧
      doHTML (rangeRotated 3) testInputMap =
        "<form name=\"goform\" method=\"POST\">" ++
          String.intercalate "\n" (es.map fun e =>
            "<label for=\"" ++ e.1 ++ "\">" ++ e.1 ++ "</label><input name=\""
              ++ e.1 ++ "\" type=\"" ++ e.2 ++ "\" />") ++ "</form>") ∧
    doHTML (rangeRotated 3) testInputMap = expectedHTML ∧
    doHTML rangeInOrder ⟨[]⟩ = "<form name=\"goform\" method=\"POST\"></form>" :=
  ⟨(doHTML_sorted_lines (rangeRotated 3) (rangeRotated_valid 3) testInputMap (by decide)).1,
   by decide,
   (doHTML_sorted_lines rangeInOrder rangeInOrder_valid ⟨[]⟩ (by decide)).2 rfl⟩

/-- C8: `doHTML` is deterministic. Whatever the orders in which two renderings
enumerate the map, and whatever the representations of the map, as long as the
entries are the same, the two outputs are equal. -/
theorem doHTML_deterministic (range₁ range₂ : RangeOrder) (h₁ : range₁.Valid)
    (h₂ : range₂.Valid) (m₁ m₂ : GoMap) (hwf : m₁.WF) (hp : m₁.entries.Perm m₂.entries) :
    doHTML range₁ m₁ = doHTML range₂ m₂ := by
  have hkeys : m₁.keys.Perm m₂.keys := hp.map Prod.fst
  have hsort : sortStrings (range₁ m₁) = sortStrings (range₂ m₂) :=
    sortStrings_eq_of_perm (((h₁ m₁).trans hkeys).trans (h₂ m₂).symm)
  have hget : ∀ k, m₁.get k = m₂.get k := by
    intro k
    simp only [GoMap.get, GoMap.get?, lookupEntry_perm hp hwf k]
  simp only [doHTML, hsort, hget]

/-- C8, on the map of `TestDoHTMLReturnsExpectedHTML` and the same entries in
another order, enumerated in two different orders. -/
theorem doHTML_deterministic_witness :
    doHTML rangeInOrder testInputMap = doHTML (rangeRotated 5) formFieldsMap ∧
    doHTML rangeInOrder testInputMap = expectedHTML :=
  ⟨doHTML_deterministic rangeInOrder (rangeRotated 5) rangeInOrder_valid (rangeRotated_valid 5)
      testInputMap formFieldsMap (by decide) (by decide),
   by decide⟩

/-! ## Lemmas on `doFilledForm` -/

theorem doFilledFormLoop_some (sprintfF : Float64 → String) (fields : GoMap) (t : GoValue)
    (names : List String) (lines : List String) (e : Option String)
    (h : doFilledFormLoop sprintfF fields t names = (some lines, e)) :
    lines = names.map (filledLine sprintfF fields t) := by
  induction names generalizing lines e with
  | nil =>
    simp only [doFilledFormLoop, Prod.mk.injEq, Option.some.injEq] at h
    simp [← h.1]
  | cons n names ih =>
    rw [doFilledFormLoop] at h
    rcases hv : valueStringer sprintfF (goValueFieldByName t n) with ⟨value, ok⟩
    rw [hv] at h
    cases ok with
    | false => simp at h
    | true =>
      rcases hrest : doFilledFormLoop sprintfF fields t names with ⟨rest, e'⟩
      rw [hrest] at h
      cases rest with
      | none => simp at h
      | some rest =>
        simp only [Prod.mk.injEq, Option.some.injEq] at h
        rw [← h.1, List.map_cons, ← ih rest e' hrest]
        simp [filledLine, hv]

theorem doFilledFormLoop_none (sprintfF : Float64 → String) (fields : GoMap) (t : GoValue)
    (names : List String) (e : Option String)
    (h : doFilledFormLoop sprintfF fields t names = (none, e)) : e ≠ none := by
  induction names generalizing e with
  | nil => simp [doFilledFormLoop] at h
  | cons n names ih =>
    rw [doFilledFormLoop] at h
    rcases hv : valueStringer sprintfF (goValueFieldByName t n) with ⟨value, ok⟩
    rw [hv] at h
    cases ok with
    | false =>
      simp only [Prod.mk.injEq, true_and] at h
      rw [← h]
      simp
    | true =>
      rcases hrest : doFilledFormLoop sprintfF fields t names with ⟨rest, e'⟩
      rw [hrest] at h
      cases rest with
      | none =>
        simp only [Prod.mk.injEq, true_and] at h
        rw [← h]
        exact ih e' hrest
      | some rest => simp at h

theorem getFields_struct_cases (fields : List (StructField × Value)) :
    (getFields (.Struct fields) = (some (storeAll (fields.map Prod.fst) ⟨[]⟩), none) ∧
      ∀ f ∈ fields.map Prod.fst, f.TypeName ∈ supportedTypes) ∨
    ∃ e, getFields (.Struct fields) = (none, some e) := by
  rw [getFields_struct]
  by_cases hsup : ∀ f ∈ fields.map Prod.fst, f.TypeName ∈ supportedTypes
  · exact Or.inl ⟨getFieldsLoop_ok _ _ hsup, hsup⟩
  · push_neg at hsup
    obtain ⟨pre, f, post, hsplit, hpre, hf⟩ := exists_first_unsupported _ hsup
    rw [hsplit, getFieldsLoop_err pre f post _ hpre hf]
    exact Or.inr ⟨_, rfl⟩

theorem doFilledForm_struct (sprintfF : Float64 → String) (range : RangeOrder)
    (fields : List (StructField × Value)) (out : String)
    (h : doFilledForm sprintfF range (.Struct fields) = (out, none)) :
    getFields (.Struct fields) = (some (storeAll (fields.map Prod.fst) ⟨[]⟩), none) ∧
    out = formTemplate (String.intercalate "\n"
      ((range (storeAll (fields.map Prod.fst) ⟨[]⟩)).map
        (filledLine sprintfF (storeAll (fields.map Prod.fst) ⟨[]⟩) (.Struct fields)))) := by
  rcases getFields_struct_cases fields with ⟨hg, _⟩ | ⟨e, hg⟩
  · refine ⟨hg, ?_⟩
    simp only [doFilledForm, hg, Option.getD_some, goValueKind] at h
    rcases hloop : doFilledFormLoop sprintfF (storeAll (fields.map Prod.fst) ⟨[]⟩)
      (.Struct fields) (range (storeAll (fields.map Prod.fst) ⟨[]⟩)) with ⟨lines, e⟩
    cases lines with
    | none =>
      simp [hloop] at h
      exact absurd h.2 (doFilledFormLoop_none _ _ _ _ _ hloop)
    | some lines =>
      have hl := doFilledFormLoop_some _ _ _ _ _ _ hloop
      simp [hloop] at h
      rw [← h, hl]
  · simp [doFilledForm, hg] at h

theorem fieldByName_of_mem (fields : List (StructField × Value))
    (hnd : (fieldNamesOf fields).Nodup) (fv : StructField × Value) (hfv : fv ∈ fields) :
    fieldByName fields fv.1.Name = fv.2 := by
  induction fields with
  | nil => cases hfv
  | cons g fields ih =>
    obtain ⟨f, v⟩ := g
    simp only [fieldNamesOf, List.map_cons, List.nodup_cons] at hnd
    rcases List.mem_cons.mp hfv with rfl | hmem
    · simp [fieldByName]
    · have hne : f.Name ≠ fv.1.Name := by
        intro heq
        apply hnd.1
        rw [heq]
        exact List.mem_map_of_mem (fun fv => fv.1.Name) hmem
      simp only [fieldByName, hne, if_false]
      exact ih hnd.2 hmem

/-! ## C9-C10: `doFilledForm` -/

/-- C9 as stated fails on `struct { _ string; _ string }` holding `"a"` and
`"b"`: `doFilledForm` succeeds and its output has a single line, with the value
`"a"` of the first field, so that the output is not the join of one line per
field, in whatever order the two lines are taken. -/
theorem doFilledForm_blank_fields_one_line :
    getFields (.Struct blankStringPair) = (some ⟨[("_", "text")]⟩, none) ∧
    doFilledForm (fun _ => "") rangeInOrder (.Struct blankStringPair) =
      ("<form name=\"goform\" method=\"POST\"><label for=\"_\">_</label><input name=\"_\" type=\"text\" value=\"a\" /></form>",
        none) ∧
    ¬ ∃ lines : List String,
      lines.Perm (blankStringPair.map fun fv =>
        "<label for=\"" ++ fv.1.Name ++ "\">" ++ fv.1.Name ++ "</label><input name=\""
          ++ fv.1.Name ++ "\" type=\"" ++ "text" ++ "\" value=\""
          ++ (valueStringer (fun _ => "") fv.2).1 ++ "\" />") ∧
      (doFilledForm (fun _ => "") rangeInOrder (.Struct blankStringPair)).1 =
        "<form name=\"goform\" method=\"POST\">" ++ String.intercalate "\n" lines
          ++ "</form>" := by
  refine ⟨rfl, by decide, ?_⟩
  rintro ⟨lines, hp, hout⟩
  obtain ⟨x, y, rfl⟩ := List.length_eq_two.mp (hp.length_eq.trans rfl)
  have hx := hp.subset (List.mem_cons_self x [y])
  have hy := hp.subset (List.mem_cons_of_mem x (List.mem_cons_self y []))
  have key : ∀ x ∈ (blankStringPair.map fun fv =>
        "<label for=\"" ++ fv.1.Name ++ "\">" ++ fv.1.Name ++ "</label><input name=\""
          ++ fv.1.Name ++ "\" type=\"" ++ "text" ++ "\" value=\""
          ++ (valueStringer (fun _ => "") fv.2).1 ++ "\" />"),
      ∀ y ∈ (blankStringPair.map fun fv =>
        "<label for=\"" ++ fv.1.Name ++ "\">" ++ fv.1.Name ++ "</label><input name=\""
          ++ fv.1.Name ++ "\" type=\"" ++ "text" ++ "\" value=\""
          ++ (valueStringer (fun _ => "") fv.2).1 ++ "\" />"),
      (doFilledForm (fun _ => "") rangeInOrder (.Struct blankStringPair)).1 ≠
        "<form name=\"goform\" method=\"POST\">" ++ String.intercalate "\n" [x, y]
          ++ "</form>" := by decide
  exact key x hx y hy hout

/-- C9 (amended): for every record whose field names are pairwise distinct and
on which `doFilledForm` succeeds, the output is the opening `<form>` tag, the
lines joined with `"\n"`, and `</form>`, where the lines are, in some order,
exactly one line
`<label for="N">N</label><input name="N" type="T" value="V" />` per field, `T`
being the type `getFields` assigns to `N` and `V` the string `valueStringer`
gives for the field's current value: a string as it is, without escaping, and
an integer in decimal form. -/
theorem doFilledForm_lines (sprintfF : Float64 → String) (range : RangeOrder)
    (hrange : range.Valid) (fields : List (StructField × Value))
    (hnd : (fieldNamesOf fields).Nodup) (out : String)
    (h : doFilledForm sprintfF range (.Struct fields) = (out, none)) :
    (∃ m lines, getFields (.Struct fields) = (some m, none) ∧
      lines.Perm (fields.map fun fv =>
        "<label for=\"" ++ fv.1.Name ++ "\">" ++ fv.1.Name ++ "</label><input name=\""
          ++ fv.1.Name ++ "\" type=\"" ++ m.get fv.1.Name ++ "\" value=\""
          ++ (valueStringer sprintfF fv.2).1 ++ "\" />") ∧
      out = "<form name=\"goform\" method=\"POST\">" ++ String.intercalate "\n" lines
        ++ "</form>") ∧
    (∀ v : String, valueStringer sprintfF (.str v) = (v, true)) ∧
    (∀ k hk (v : Int), valueStringer sprintfF (.int k hk v) = (toString v, true)) := by
  obtain ⟨hg, hout⟩ := doFilledForm_struct sprintfF range fields out h
  have hnames : (fields.map Prod.fst).map StructField.Name = fieldNamesOf fields := by
    simp [fieldNamesOf, List.map_map, Function.comp_def]
  have hkeys : (storeAll (fields.map Prod.fst) ⟨[]⟩).keys = fieldNamesOf fields := by
    rw [storeAll_of_nodup _ _ (hnames ▸ hnd) (by simp [GoMap.keys])]
    simp [GoMap.keys, fieldNamesOf, List.map_map, Function.comp_def]
  refine ⟨⟨_, _, hg, ?_, hout⟩, fun v => rfl, ?_⟩
  · have hp := (hrange (storeAll (fields.map Prod.fst) ⟨[]⟩)).map
      (filledLine sprintfF (storeAll (fields.map Prod.fst) ⟨[]⟩) (.Struct fields))
    rw [hkeys, fieldNamesOf, List.map_map] at hp
    refine hp.trans (List.Perm.of_eq ?_)
    apply List.map_congr_left
    intro fv hfv
    simp only [Function.comp_def, filledLine, inputWithValueTemplate, goValueFieldByName,
      fieldByName_of_mem fields hnd fv hfv]
  · intro k hk v
    cases k <;> first | rfl | exact absurd hk (by decide)

/-- C9, on the value of `TestDoFillHTMLReturnsExpectedHTML`: the field `Age`,
which holds 32, is rendered with `value="32"`. -/
theorem doFilledForm_lines_witness :
    (∃ m lines, getFields testFilledValue = (some m, none) ∧
      lines.Perm ((formFields "Horacio" "Duran" "horacio.duran@gmail.com" "http://perri.to"
          "+555555555" "a big secret" 32).map fun fv =>
        "<label for=\"" ++ fv.1.Name ++ "\">" ++ fv.1.Name ++ "</label><input name=\""
          ++ fv.1.Name ++ "\" type=\"" ++ m.get fv.1.Name ++ "\" value=\""
          ++ (valueStringer (fun _ => "") fv.2).1 ++ "\" />") ∧
      expectedFilledHTML = "<form name=\"goform\" method=\"POST\">"
        ++ String.intercalate "\n" lines ++ "</form>") ∧
    valueStringer (fun _ => "") (.int Kind.Int rfl 32) = ("32", true) :=
  ⟨(doFilledForm_lines (fun _ => "") rangeInOrder rangeInOrder_valid
      (formFields "Horacio" "Duran" "horacio.duran@gmail.com" "http://perri.to"
        "+555555555" "a big secret" 32) (by decide) expectedFilledHTML (by decide)).1,
   by decide⟩

/-- C10 fails on the code: `doFilledForm` emits the lines in the order in which
the `range` loop enumerates the field map. On the value of
`TestDoFillHTMLReturnsExpectedHTML`, an enumeration that starts at the second
key gives an output whose last line is that of `FirstName`, which is not the
string the test expects; the expected string is the output only when the
enumeration happens to follow the declaration order. -/
theorem doFilledForm_follows_range_order :
    (rangeRotated 1).Valid ∧
    doFilledForm (fun _ => "") (rangeRotated 1) testFilledValue = (rotatedFilledHTML, none) ∧
    rotatedFilledHTML ≠ expectedFilledHTML ∧
    doFilledForm (fun _ => "") rangeInOrder testFilledValue = (expectedFilledHTML, none) :=
  ⟨rangeRotated_valid 1, by decide, by decide, by decide⟩

/-! ## Lemmas on decimal literals -/

theorem digitValue_digitChar (d : Nat) (h : d < 10) :
    digitValue (Nat.digitChar d) = some d := by
  interval_cases d <;> rfl

theorem digitValue_eq_some (c : Char) (d : Nat) (h : digitValue c = some d) :
    d < 10 ∧ c = Nat.digitChar d := by
  unfold digitValue at h
  split_ifs at h with hc
  have hd : c.toNat - 48 = d := Option.some.inj h
  have hlt : d < 10 := by omega
  refine ⟨hlt, ?_⟩
  have hc' : c = Char.ofNat (48 + d) := by
    rw [show 48 + d = c.toNat by omega, Char.ofNat_toNat]
  rw [hc']
  interval_cases d <;> rfl

theorem digitChar_ne_sign (d : Nat) (h : d < 10) :
    Nat.digitChar d ≠ '+' ∧ Nat.digitChar d ≠ '-' := by
  interval_cases d <;> decide

theorem parseUintLoop_digits (ds : List Nat) (hds : ∀ d ∈ ds, d < 10) (n : Nat) :
    parseUintLoop (ds.map Nat.digitChar) n =
      some (n * 10 ^ ds.length + Nat.ofDigits 10 ds.reverse) := by
  induction ds generalizing n with
  | nil => simp [parseUintLoop]
  | cons d ds ih =>
    have hd : d < 10 := hds d (List.mem_cons_self _ _)
    rw [List.map_cons, parseUintLoop, digitValue_digitChar d hd]
    simp only
    rw [ih (fun x hx => hds x (List.mem_cons_of_mem _ hx)), List.reverse_cons,
      Nat.ofDigits_append, List.length_reverse, List.length_cons, Nat.ofDigits_singleton]
    congr 1
    ring

theorem parseUintLoop_eq_some (cs : List Char) (n m : Nat)
    (h : parseUintLoop cs n = some m) :
    ∃ ds : List Nat, (∀ d ∈ ds, d < 10) ∧ cs = ds.map Nat.digitChar ∧
      m = n * 10 ^ ds.length + Nat.ofDigits 10 ds.reverse := by
  induction cs generalizing n with
  | nil =>
    refine ⟨[], by simp, rfl, ?_⟩
    simp only [parseUintLoop, Option.some.injEq] at h
    simp [← h]
  | cons c cs ih =>
    rw [parseUintLoop] at h
    cases hc : digitValue c with
    | none => simp [hc] at h
    | some d =>
      rw [hc] at h
      obtain ⟨hd, hcd⟩ := digitValue_eq_some c d hc
      obtain ⟨ds, hds, hcs, hm⟩ := ih _ h
      refine ⟨d :: ds, ?_, by rw [hcd, hcs, List.map_cons], ?_⟩
      · intro x hx
        rcases List.mem_cons.mp hx with rfl | hx
        · exact hd
        · exact hds x hx
      · rw [hm, List.reverse_cons, Nat.ofDigits_append, List.length_reverse, List.length_cons,
          Nat.ofDigits_singleton]
        ring

theorem ParseInt_minus (v : String) (bitSize : Nat) (cs : List Char) (h : v.data = '-' :: cs) :
    ParseInt v bitSize =
      if cs = [] then none
      else match parseUintLoop cs 0 with
        | none => none
        | some un => if 2 ^ (bitSize - 1) < un then none else some (-(un : Int)) := by
  simp only [ParseInt, h]
  simp

theorem ParseInt_plus (v : String) (bitSize : Nat) (cs : List Char) (h : v.data = '+' :: cs) :
    ParseInt v bitSize =
      if cs = [] then none
      else match parseUintLoop cs 0 with
        | none => none
        | some un => if 2 ^ (bitSize - 1) ≤ un then none else some (un : Int) := by
  simp only [ParseInt, h]
  simp

theorem ParseInt_unsigned (v : String) (bitSize : Nat) (c : Char) (cs : List Char)
    (h : v.data = c :: cs) (hp : c ≠ '+') (hm : c ≠ '-') :
    ParseInt v bitSize =
      match parseUintLoop (c :: cs) 0 with
        | none => none
        | some un => if 2 ^ (bitSize - 1) ≤ un then none else some (un : Int) := by
  simp only [ParseInt, h]
  simp [hp, hm]


theorem denotesDecimal_of_parse (v : String) (sign : List Char) (cs : List Char) (un : Nat)
    (hsign : sign = [] ∨ sign = ['+'] ∨ sign = ['-']) (hv : v.data = sign ++ cs)
    (hne : cs ≠ []) (hu : parseUintLoop cs 0 = some un) :
    denotesDecimal v ((if sign = ['-'] then -1 else 1) * (un : Int)) := by
  obtain ⟨ds, hds, hcs, hun⟩ := parseUintLoop_eq_some cs 0 un hu
  refine ⟨sign, ds, hsign, ?_, hds, by rw [hv, hcs], ?_⟩
  · rintro rfl
    exact hne (by simpa using hcs)
  · rw [hun]
    simp

theorem parseUintLoop_digits_zero (ds : List Nat) (hds : ∀ d ∈ ds, d < 10) :
    parseUintLoop (ds.map Nat.digitChar) 0 = some (Nat.ofDigits 10 ds.reverse) := by
  simpa using parseUintLoop_digits ds hds 0

theorem ParseInt_eq_some_iff (v : String) (bitSize : Nat) (i : Int) :
    ParseInt v bitSize = some i ↔
      denotesDecimal v i ∧ -(2 ^ (bitSize - 1) : Int) ≤ i ∧ i < 2 ^ (bitSize - 1) := by
  have hcast : ((2 ^ (bitSize - 1) : Nat) : Int) = (2 : Int) ^ (bitSize - 1) := by push_cast; rfl
  have hpos : (0 : Int) < 2 ^ (bitSize - 1) := by positivity
  constructor
  · intro h
    cases hs : v.data with
    | nil => simp [ParseInt, hs] at h
    | cons c cs =>
      by_cases hm : c = '-'
      · subst hm
        rw [ParseInt_minus v bitSize cs hs] at h
        by_cases hne : cs = []
        · simp [hne] at h
        · rw [if_neg hne] at h
          cases hu : parseUintLoop cs 0 with
          | none => simp [hu] at h
          | some un =>
            rw [hu] at h
            simp only at h
            by_cases hc : 2 ^ (bitSize - 1) < un
            · simp [hc] at h
            · rw [if_neg hc] at h
              have hi : -(un : Int) = i := Option.some.inj h
              have hd := denotesDecimal_of_parse v ['-'] cs un (by simp) hs hne hu
              simp only [if_true, neg_mul, one_mul] at hd
              rw [hi] at hd
              have hc' : (un : Int) ≤ 2 ^ (bitSize - 1) := by
                rw [← hcast]
                exact_mod_cast Nat.not_lt.mp hc
              refine ⟨hd, ?_, ?_⟩ <;> omega
      · by_cases hp : c = '+'
        · subst hp
          rw [ParseInt_plus v bitSize cs hs] at h
          by_cases hne : cs = []
          · simp [hne] at h
          · rw [if_neg hne] at h
            cases hu : parseUintLoop cs 0 with
            | none => simp [hu] at h
            | some un =>
              rw [hu] at h
              simp only at h
              by_cases hc : 2 ^ (bitSize - 1) ≤ un
              · simp [hc] at h
              · rw [if_neg hc] at h
                have hi : (un : Int) = i := Option.some.inj h
                have hd := denotesDecimal_of_parse v ['+'] cs un (by simp) hs hne hu
                simp only [List.cons.injEq, Char.reduceEq, and_true, if_false, one_mul] at hd
                rw [hi] at hd
                refine ⟨hd, ?_, ?_⟩ <;> omega
        · rw [ParseInt_unsigned v bitSize c cs hs hp hm] at h
          cases hu : parseUintLoop (c :: cs) 0 with
          | none => simp [hu] at h
          | some un =>
            rw [hu] at h
            simp only at h
            by_cases hc : 2 ^ (bitSize - 1) ≤ un
            · simp [hc] at h
            · rw [if_neg hc] at h
              have hi : (un : Int) = i := Option.some.inj h
              have hd := denotesDecimal_of_parse v [] (c :: cs) un (by simp) (by simpa using hs)
                (by simp) hu
              simp only [List.nil_eq, reduceCtorEq, if_false, one_mul] at hd
              rw [hi] at hd
              refine ⟨hd, ?_, ?_⟩ <;> omega
  · rintro ⟨⟨sign, ds, hsign, hne, hds, hv, hi⟩, hlo, hhi⟩
    have hu := parseUintLoop_digits_zero ds hds
    have hmap : ds.map Nat.digitChar ≠ [] := by simpa using hne
    rcases hsign with rfl | rfl | rfl
    · obtain ⟨d, ds', rfl⟩ := List.exists_cons_of_ne_nil hne
      have hd := digitChar_ne_sign d (hds d (List.mem_cons_self _ _))
      rw [ParseInt_unsigned v bitSize (Nat.digitChar d) (ds'.map Nat.digitChar)
        (by simpa using hv) hd.1 hd.2]
      rw [List.map_cons] at hu
      rw [hu]
      simp only [List.nil_eq, reduceCtorEq, if_false, one_mul] at hi
      have hc : ¬ 2 ^ (bitSize - 1) ≤ Nat.ofDigits 10 (d :: ds').reverse := by omega
      simp only [if_neg hc, hi]
    · rw [ParseInt_plus v bitSize (ds.map Nat.digitChar) (by simpa using hv), if_neg hmap, hu]
      simp only [List.cons.injEq, Char.reduceEq, and_true, if_false, one_mul] at hi
      have hc : ¬ 2 ^ (bitSize - 1) ≤ Nat.ofDigits 10 ds.reverse := by omega
      simp only [if_neg hc, hi]
    · rw [ParseInt_minus v bitSize (ds.map Nat.digitChar) (by simpa using hv), if_neg hmap, hu]
      simp only [if_true, neg_mul, one_mul] at hi
      have hc : ¬ 2 ^ (bitSize - 1) < Nat.ofDigits 10 ds.reverse := by omega
      simp only [if_neg hc, hi]

theorem toDigitsCore_digits (fuel n : Nat) (ds : List Char) (h : n < fuel) :
    ∃ L : List Nat, L ≠ [] ∧ (∀ d ∈ L, d < 10) ∧
      Nat.toDigitsCore 10 fuel n ds = L.map Nat.digitChar ++ ds ∧
      Nat.ofDigits 10 L.reverse = n := by
  induction fuel generalizing n ds with
  | zero => omega
  | succ fuel ih =>
    rw [Nat.toDigitsCore]
    by_cases hz : n / 10 = 0
    · refine ⟨[n % 10], by simp, ?_, by simp [hz], ?_⟩
      · intro d hd
        rw [List.mem_singleton] at hd
        omega
      · simp only [List.reverse_singleton, Nat.ofDigits_singleton]
        omega
    · obtain ⟨L, hL, hlt, hcore, hval⟩ := ih (n / 10) (Nat.digitChar (n % 10) :: ds) (by omega)
      refine ⟨L ++ [n % 10], by simp, ?_, ?_, ?_⟩
      · intro d hd
        rcases List.mem_append.mp hd with hd | hd
        · exact hlt d hd
        · rw [List.mem_singleton] at hd
          omega
      · simp only [hz, if_false, hcore, List.map_append, List.map_cons, List.map_nil,
          List.append_assoc, List.singleton_append]
      · rw [List.reverse_append, List.reverse_singleton, List.singleton_append,
          Nat.ofDigits_cons, hval]
        omega

theorem denotesDecimal_natRepr (n : Nat) : denotesDecimal (Nat.repr n) (n : Int) := by
  obtain ⟨L, hL, hlt, hcore, hval⟩ := toDigitsCore_digits (n + 1) n [] (by omega)
  refine ⟨[], L, Or.inl rfl, hL, hlt, ?_, ?_⟩
  · simp only [Nat.repr, Nat.toDigits, List.asString, hcore, List.append_nil, List.nil_append]
  · simp [hval]

theorem denotesDecimal_toString (i : Int) : denotesDecimal (toString i) i := by
  cases i with
  | ofNat m => exact denotesDecimal_natRepr m
  | negSucc m =>
    obtain ⟨L', hL', hlt', hcore, hval'⟩ := toDigitsCore_digits (m + 1 + 1) (m + 1) [] (by omega)
    refine ⟨['-'], L', Or.inr (Or.inr rfl), hL', hlt', ?_, ?_⟩
    · show ("-" ++ Nat.repr (m + 1)).data = _
      simp only [String.data_append, Nat.repr, Nat.toDigits, List.asString, hcore,
        List.append_nil]
    · simp only [if_true, hval', Int.negSucc_eq]
      push_cast
      ring

theorem ParseInt_toString (i : Int) (bitSize : Nat)
    (h : -(2 ^ (bitSize - 1) : Int) ≤ i ∧ i < 2 ^ (bitSize - 1)) :
    ParseInt (toString i) bitSize = some i :=
  (ParseInt_eq_some_iff _ _ _).mpr ⟨denotesDecimal_toString i, h⟩

/-! ## C11-C14: `doFilledForm` and `getFields`, continued -/

/-- C11 fails on the code: `doFilledForm` does not sort the field names, so its
lines follow the order in which the `range` loop enumerates the field map. On
the value of `TestDoFillHTMLReturnsExpectedHTML`, an enumeration in declaration
order gives the string the test expects, which starts with `FirstName` and is
not the form with its lines sorted by name, and an enumeration that starts at
the third key gives yet another output: two renderings of the same record differ. -/
theorem doFilledForm_not_sorted :
    rangeInOrder.Valid ∧ (rangeRotated 2).Valid ∧
    doFilledForm (fun _ => "") rangeInOrder testFilledValue = (expectedFilledHTML, none) ∧
    expectedFilledHTML ≠ sortedFilledHTML ∧
    doFilledForm (fun _ => "") (rangeRotated 2) testFilledValue ≠
      doFilledForm (fun _ => "") rangeInOrder testFilledValue ∧
    doFilledForm (fun _ => "") rangeSorted testFilledValue = (sortedFilledHTML, none) :=
  ⟨rangeInOrder_valid, rangeRotated_valid 2, by decide, by decide, by decide, by decide⟩

theorem mem_setEntry {k v : String} {l : List (String × String)} {e : String × String}
    (h : e ∈ setEntry k v l) : e = (k, v) ∨ e ∈ l := by
  induction l with
  | nil => simpa [setEntry] using h
  | cons e' l ih =>
    obtain ⟨k', v'⟩ := e'
    by_cases hk : k' = k
    · simp only [setEntry, hk, if_true, List.mem_cons] at h
      rcases h with h | h
      · exact Or.inl h
      · exact Or.inr (List.mem_cons_of_mem _ h)
    · simp only [setEntry, hk, if_false, List.mem_cons] at h
      rcases h with h | h
      · exact Or.inr (h ▸ List.mem_cons_self _ _)
      · rcases ih h with h | h
        · exact Or.inl h
        · exact Or.inr (List.mem_cons_of_mem _ h)

theorem fieldHTMLType_mem_inputTypes (f : StructField) (ty : String)
    (h : fieldHTMLType f = some ty) : ty ∈ inputTypes := by
  unfold fieldHTMLType at h
  simp only [GOHTML, GoMap.get?, lookupEntry] at h
  split_ifs at h <;> simp only [Option.some.injEq, reduceCtorEq] at h <;>
    (subst h; decide)

theorem getFieldsLoop_values (fs : List StructField) (ret m : GoMap) (e : Option String)
    (h : getFieldsLoop fs ret = (some m, e))
    (hret : ∀ kv ∈ ret.entries, kv.2 ∈ inputTypes) :
    ∀ kv ∈ m.entries, kv.2 ∈ inputTypes := by
  induction fs generalizing ret with
  | nil =>
    simp only [getFieldsLoop, Prod.mk.injEq, Option.some.injEq] at h
    rw [← h.1]
    exact hret
  | cons f fs ih =>
    rw [getFieldsLoop_cons] at h
    cases hty : fieldHTMLType f with
    | none => simp [hty] at h
    | some ty =>
      rw [hty] at h
      refine ih _ h ?_
      intro kv hkv
      rcases mem_setEntry hkv with rfl | hkv
      · exact fieldHTMLType_mem_inputTypes f ty hty
      · exact hret kv hkv

theorem getFields_ptr_struct (fields : List (StructField × Value)) :
    getFields (.Ptr (.Struct fields)) = getFieldsLoop (fields.map Prod.fst) ⟨[]⟩ := by
  simp [getFields, reflectTypeOf, typeKind, typeElem, typeFields]

/-- C12: every value of a map returned by a successful call of `getFields` is
one of `"text"`, `"password"`, `"email"`, `"url"`, `"tel"`, `"number"`,
whatever the input and whatever the tags of its fields. -/
theorem getFields_values (goType : GoValue) (m : GoMap)
    (h : getFields goType = (some m, none)) :
    ∀ k v, (k, v) ∈ m.entries →
      v ∈ ["text", "password", "email", "url", "tel", "number"] := by
  have hloop : ∃ fs, getFieldsLoop fs ⟨[]⟩ = (some m, none) := by
    cases goType with
    | Struct fields => exact ⟨_, (getFields_struct fields).symm.trans h⟩
    | Ptr elem =>
      cases elem with
      | Struct fields => exact ⟨_, (getFields_ptr_struct fields).symm.trans h⟩
      | Ptr e => simp [getFields, reflectTypeOf, typeKind, typeElem] at h
      | Other k hk =>
        have hk1 : k ≠ Kind.Struct := hk.1
        simp [getFields, reflectTypeOf, typeKind, typeElem, hk1] at h
    | Other k hk =>
      have hk1 : k ≠ Kind.Struct := hk.1
      have hk2 : k ≠ Kind.Ptr := hk.2
      simp [getFields, reflectTypeOf, typeKind, hk1, hk2] at h
  obtain ⟨fs, hfs⟩ := hloop
  intro k v hkv
  exact getFieldsLoop_values fs ⟨[]⟩ m none hfs (by simp) (k, v) hkv

/-- C12, on `formWithFields`: the value stored for `Phone` is one of the six. -/
theorem getFields_values_witness :
    getFields (formWithFields "" "" "" "" "" "" 0) = (some formFieldsMap, none) ∧
    "tel" ∈ ["text", "password", "email", "url", "tel", "number"] :=
  ⟨rfl, getFields_values (formWithFields "" "" "" "" "" "" 0) formFieldsMap rfl "Phone" "tel"
    (by decide)⟩

/-- C13: `getFields` dereferences a pointer to a struct. For every struct value
`s`, `getFields(&s)` returns what `getFields(s)` returns, map and error alike. -/
theorem getFields_ptr (fields : List (StructField × Value)) :
    getFields (.Ptr (.Struct fields)) = getFields (.Struct fields) := by
  rw [getFields_ptr_struct, getFields_struct]

/-- C14: whenever `getFields` returns an error on an input, `doFilledForm` on
the same input returns the empty string and the error
`cannot obtain fields: ` followed by the message of that error. -/
theorem doFilledForm_getFields_error (sprintfF : Float64 → String) (range : RangeOrder)
    (contents : GoValue) (msg : String) (h : (getFields contents).2 = some msg) :
    doFilledForm sprintfF range contents = ("", some ("cannot obtain fields: " ++ msg)) := by
  rcases hg : getFields contents with ⟨fields, err⟩
  rw [hg] at h
  simp only at h
  subst h
  simp [doFilledForm, hg]

/-- C14, on a non-struct input and on a struct with a field of unsupported type. -/
theorem doFilledForm_getFields_error_witness :
    doFilledForm (fun _ => "") rangeInOrder wrongFormValue =
      ("", some "cannot obtain fields: interface must be a struct is int") ∧
    doFilledForm (fun _ => "") rangeInOrder (.Struct withBoolFields) =
      ("", some "cannot obtain fields: cannot find an HTML equivalent for \"Ok\" of type ") :=
  ⟨doFilledForm_getFields_error _ _ wrongFormValue _ rfl,
   doFilledForm_getFields_error _ _ (.Struct withBoolFields) _ rfl⟩

/-! ## Lemmas on `ProcessPOST` -/

theorem ProcessPOST_eq (sprintfQ : String → String) (s : sample) (post : GoMap) :
    ProcessPOST sprintfQ s post =
      match post.get? "Age" with
      | some value =>
        match ParseInt value 32 with
        | none => (stringsFilled s post, some ("unexpected value for Age " ++ sprintfQ value))
        | some i => ({ stringsFilled s post with Age := i }, none)
      | none => (stringsFilled s post, none) := by
  unfold ProcessPOST stringsFilled
  cases post.get? "FirstName" <;> cases post.get? "LastName" <;> cases post.get? "Email" <;>
    cases post.get? "Website" <;> cases post.get? "Phone" <;> cases post.get? "Password" <;>
    rfl

theorem isInt32Literal_iff (v : String) : isInt32Literal v ↔ ∃ i, ParseInt v 32 = some i := by
  unfold isInt32Literal
  constructor
  · rintro ⟨i, hd, hlo, hhi⟩
    exact ⟨i, (ParseInt_eq_some_iff v 32 i).mpr ⟨hd, by norm_num; exact hlo, by norm_num; exact hhi⟩⟩
  · rintro ⟨i, hi⟩
    obtain ⟨hd, hlo, hhi⟩ := (ParseInt_eq_some_iff v 32 i).mp hi
    exact ⟨i, hd, by norm_num at hlo; exact hlo, by norm_num at hhi; exact hhi⟩

theorem ProcessPOST_noAge (sprintfQ : String → String) (s : sample) (post : GoMap)
    (hA : post.get? "Age" = none) :
    ProcessPOST sprintfQ s post = (stringsFilled s post, none) := by
  rw [ProcessPOST_eq, hA]

theorem ProcessPOST_badAge (sprintfQ : String → String) (s : sample) (post : GoMap)
    (value : String) (hA : post.get? "Age" = some value) (hP : ParseInt value 32 = none) :
    ProcessPOST sprintfQ s post =
      (stringsFilled s post, some ("unexpected value for Age " ++ sprintfQ value)) := by
  rw [ProcessPOST_eq, hA]
  simp only [hP]

theorem ProcessPOST_goodAge (sprintfQ : String → String) (s : sample) (post : GoMap)
    (value : String) (i : Int) (hA : post.get? "Age" = some value)
    (hP : ParseInt value 32 = some i) :
    ProcessPOST sprintfQ s post = ({ stringsFilled s post with Age := i }, none) := by
  rw [ProcessPOST_eq, hA]
  simp only [hP]

/-! ## C15-C16, C18: `ProcessPOST` -/

/-- C15: whenever `ProcessPOST` returns no error, each of `FirstName`,
`LastName`, `Email`, `Website`, `Phone`, `Password` is afterwards the value
`post` has for its key, or unchanged when the key is absent; `Age` is the
integer that the base-10 literal `post["Age"]` denotes, or unchanged when the
key is absent; and the keys of `post` that name no field have no effect: a map
that agrees with `post` on the seven field names gives the same result. -/
theorem ProcessPOST_fills (sprintfQ : String → String) (s s' : sample) (post : GoMap)
    (h : ProcessPOST sprintfQ s post = (s', none)) :
    s'.FirstName = (post.get? "FirstName").getD s.FirstName ∧
    s'.LastName = (post.get? "LastName").getD s.LastName ∧
    s'.Email = (post.get? "Email").getD s.Email ∧
    s'.Website = (post.get? "Website").getD s.Website ∧
    s'.Phone = (post.get? "Phone").getD s.Phone ∧
    s'.Password = (post.get? "Password").getD s.Password ∧
    (∀ v, post.get? "Age" = some v → denotesDecimal v s'.Age) ∧
    (post.get? "Age" = none → s'.Age = s.Age) ∧
    ∀ post' : GoMap, (∀ k ∈ sampleFieldNames, post'.get? k = post.get? k) →
      ProcessPOST sprintfQ s post' = ProcessPOST sprintfQ s post := by
  have hframe : ∀ post' : GoMap, (∀ k ∈ sampleFieldNames, post'.get? k = post.get? k) →
      ProcessPOST sprintfQ s post' = ProcessPOST sprintfQ s post := by
    intro post' hk
    simp only [sampleFieldNames, List.mem_cons, List.mem_singleton, List.not_mem_nil, or_false,
      forall_eq_or_imp, forall_eq] at hk
    obtain ⟨h1, h2, h3, h4, h5, h6, h7⟩ := hk
    simp only [ProcessPOST_eq, stringsFilled, h1, h2, h3, h4, h5, h6, h7]
  cases hA : post.get? "Age" with
  | none =>
    rw [ProcessPOST_noAge sprintfQ s post hA] at h
    have hs : s' = stringsFilled s post := (Prod.mk.inj h).1.symm
    subst hs
    refine ⟨rfl, rfl, rfl, rfl, rfl, rfl, ?_, ?_, hframe⟩
    · intro v hv
      cases hv
    · intro _
      rfl
  | some value =>
    cases hP : ParseInt value 32 with
    | none =>
      rw [ProcessPOST_badAge sprintfQ s post value hA hP] at h
      cases (Prod.mk.inj h).2
    | some i =>
      rw [ProcessPOST_goodAge sprintfQ s post value i hA hP] at h
      have hs : s' = { stringsFilled s post with Age := i } := (Prod.mk.inj h).1.symm
      subst hs
      refine ⟨rfl, rfl, rfl, rfl, rfl, rfl, ?_, ?_, hframe⟩
      · intro v hv
        cases hv
        exact ((ParseInt_eq_some_iff _ 32 i).mp hP).1
      · intro hn
        cases hn

/-- C15, on a record whose `FirstName` and `Age` are posted along with a key
that names no field. -/
theorem ProcessPOST_fills_witness :
    ProcessPOST (fun v => v) mainSample ⟨[("FirstName", "Ada"), ("Age", "-7"), ("Extra", "x")]⟩ =
      ({ mainSample with FirstName := "Ada", Age := -7 }, none) ∧
    denotesDecimal "-7" (-7) :=
  ⟨by decide,
   (ProcessPOST_fills (fun v => v) mainSample { mainSample with FirstName := "Ada", Age := -7 }
      ⟨[("FirstName", "Ada"), ("Age", "-7"), ("Extra", "x")]⟩ (by decide)).2.2.2.2.2.2.1
      "-7" rfl⟩

/-- C16: `ProcessPOST` returns an error exactly when `post` has the key `Age`
with a value that is not a base-10 integer literal within the signed 32-bit
range; `Age` then keeps its prior value, while each string field is already
the value `post` has for its key (or unchanged when the key is absent). -/
theorem ProcessPOST_error_iff (sprintfQ : String → String) (s : sample) (post : GoMap) :
    ((ProcessPOST sprintfQ s post).2 ≠ none ↔
      ∃ v, post.get? "Age" = some v ∧ ¬ isInt32Literal v) ∧
    ((ProcessPOST sprintfQ s post).2 ≠ none →
      (ProcessPOST sprintfQ s post).1.Age = s.Age ∧
      (ProcessPOST sprintfQ s post).1.FirstName = (post.get? "FirstName").getD s.FirstName ∧
      (ProcessPOST sprintfQ s post).1.LastName = (post.get? "LastName").getD s.LastName ∧
      (ProcessPOST sprintfQ s post).1.Email = (post.get? "Email").getD s.Email ∧
      (ProcessPOST sprintfQ s post).1.Website = (post.get? "Website").getD s.Website ∧
      (ProcessPOST sprintfQ s post).1.Phone = (post.get? "Phone").getD s.Phone ∧
      (ProcessPOST sprintfQ s post).1.Password = (post.get? "Password").getD s.Password) := by
  cases hA : post.get? "Age" with
  | none =>
    rw [ProcessPOST_noAge sprintfQ s post hA]
    refine ⟨⟨fun h => absurd rfl h, ?_⟩, fun h => absurd rfl h⟩
    rintro ⟨v, hv, -⟩
    cases hv
  | some value =>
    cases hP : ParseInt value 32 with
    | none =>
      rw [ProcessPOST_badAge sprintfQ s post value hA hP]
      refine ⟨⟨fun _ => ⟨value, rfl, ?_⟩, fun _ => by simp⟩,
        fun _ => ⟨rfl, rfl, rfl, rfl, rfl, rfl, rfl⟩⟩
      rw [isInt32Literal_iff, hP]
      simp
    | some i =>
      rw [ProcessPOST_goodAge sprintfQ s post value i hA hP]
      refine ⟨⟨fun h => absurd rfl h, ?_⟩, fun h => absurd rfl h⟩
      rintro ⟨v, hv, hlit⟩
      cases hv
      exact absurd ((isInt32Literal_iff value).mpr ⟨i, hP⟩) hlit

/-- C16, on a post whose `Age` is out of range: the error is returned, `Age`
is kept and `FirstName` is overwritten all the same. -/
theorem ProcessPOST_error_iff_witness :
    (∃ v, GoMap.get? ⟨[("Age", "2147483648"), ("FirstName", "Ada")]⟩ "Age" = some v ∧
      ¬ isInt32Literal v) ∧
    (ProcessPOST (fun v => v) mainSample ⟨[("Age", "2147483648"), ("FirstName", "Ada")]⟩).1 =
      { mainSample with FirstName := "Ada" } ∧
    ProcessPOST (fun v => v) mainSample ⟨[("Age", "-2147483648")]⟩ =
      ({ mainSample with Age := -2147483648 }, none) :=
  ⟨(ProcessPOST_error_iff (fun v => v) mainSample
      ⟨[("Age", "2147483648"), ("FirstName", "Ada")]⟩).1.mp (by decide),
   by decide, by decide⟩

/-- C18: rendering then filling is a round trip for `sample`. For every record
`s` whose `Age` lies in the signed 32-bit range, and every map that sends each
field name to the string `valueStringer` gives for the value `s` has for that
field, `ProcessPOST` on the zero record returns no error and leaves the record
equal to `s`. -/
theorem ProcessPOST_roundtrip (sprintfQ : String → String) (sprintfF : Float64 → String)
    (s : sample) (hAge : -2 ^ 31 ≤ s.Age ∧ s.Age < 2 ^ 31) (post : GoMap)
    (hpost : ∀ fv ∈ sampleFields s,
      post.get? fv.1.Name = some (valueStringer sprintfF fv.2).1) :
    ProcessPOST sprintfQ zeroSample post = (s, none) := by
  simp only [sampleFields, formFields, List.mem_cons, List.mem_singleton, List.not_mem_nil,
    or_false, forall_eq_or_imp, forall_eq] at hpost
  obtain ⟨h1, h2, h3, h4, h5, h6, h7⟩ := hpost
  have h7' : post.get? "Age" = some (toString s.Age) := h7
  have hparse : ParseInt (toString s.Age) 32 = some s.Age :=
    ParseInt_toString s.Age 32 ⟨by norm_num; exact hAge.1, by norm_num; exact hAge.2⟩
  rw [ProcessPOST_eq, h7']
  simp only [hparse, stringsFilled, h1, h2, h3, h4, h5, h6]
  rfl

/-- C18, on the record `main` renders. -/
theorem ProcessPOST_roundtrip_witness :
    ProcessPOST (fun v => v) zeroSample (renderedPost (fun _ => "") mainSample) =
      (mainSample, none) :=
  ProcessPOST_roundtrip (fun v => v) (fun _ => "") mainSample (by decide)
    (renderedPost (fun _ => "") mainSample) (by decide)

/-! ## C17, C19: `valueStringer` -/

theorem doFilledFormLoop_ok (sprintfF : Float64 → String) (fields : GoMap) (t : GoValue)
    (names : List String)
    (hok : ∀ n ∈ names, (valueStringer sprintfF (goValueFieldByName t n)).2 = true) :
    doFilledFormLoop sprintfF fields t names =
      (some (names.map (filledLine sprintfF fields t)), none) := by
  induction names with
  | nil => rfl
  | cons n names ih =>
    have hn := hok n (List.mem_cons_self _ _)
    rw [doFilledFormLoop, ih (fun x hx => hok x (List.mem_cons_of_mem _ hx))]
    rcases hv : valueStringer sprintfF (goValueFieldByName t n) with ⟨value, ok⟩
    rw [hv] at hn
    simp only at hn
    subst hn
    simp [filledLine, hv]

theorem fieldByName_mem (fields : List (StructField × Value)) (n : String)
    (hn : n ∈ fieldNamesOf fields) : ∃ fv ∈ fields, fieldByName fields n = fv.2 := by
  induction fields with
  | nil => simp [fieldNamesOf] at hn
  | cons g fields ih =>
    obtain ⟨f, v⟩ := g
    by_cases hf : f.Name = n
    · exact ⟨(f, v), List.mem_cons_self _ _, by simp [fieldByName, hf]⟩
    · have hn' : n ∈ fieldNamesOf fields := by
        simp only [fieldNamesOf, List.map_cons, List.mem_cons] at hn
        rcases hn with hn | hn
        · exact absurd hn.symm hf
        · exact hn
      obtain ⟨fv, hfv, hval⟩ := ih hn'
      exact ⟨fv, List.mem_cons_of_mem _ hfv, by simp [fieldByName, hf, hval]⟩

theorem valueStringer_builtin (sprintfF : Float64 → String) (fv : StructField × Value)
    (hb : isBuiltinField fv) : (valueStringer sprintfF fv.2).2 = true := by
  rcases hb with ⟨-, hk⟩ | ⟨-, hk⟩ | ⟨-, hk⟩ | ⟨-, hk⟩ <;> simp [valueStringer, hk]

theorem supported_of_builtin (fv : StructField × Value) (hb : isBuiltinField fv) :
    fv.1.TypeName ∈ supportedTypes := by
  rcases hb with ⟨ht, -⟩ | ⟨ht, -⟩ | ⟨ht, -⟩ | ⟨ht, -⟩ <;> rw [ht] <;> decide

/-- C17: the error branch of `doFilledForm` for a value without a string is
not reached on records of builtin types. For every record whose fields all
have one of the builtin types `string`, `int`, `int64` or `float64`,
`getFields` succeeds, `valueStringer` reports `ok` for the value of every
field, and `doFilledForm` returns a nil error, whatever the order in which the
field map is enumerated. -/
theorem doFilledForm_builtin (sprintfF : Float64 → String) (range : RangeOrder)
    (hrange : range.Valid) (fields : List (StructField × Value))
    (hb : ∀ fv ∈ fields, isBuiltinField fv) :
    (∃ m, getFields (.Struct fields) = (some m, none)) ∧
    (∀ fv ∈ fields, (valueStringer sprintfF fv.2).2 = true) ∧
    (doFilledForm sprintfF range (.Struct fields)).2 = none := by
  have hsup : ∀ f ∈ fields.map Prod.fst, f.TypeName ∈ supportedTypes := by
    intro f hf
    obtain ⟨g, hg, rfl⟩ := List.mem_map.mp hf
    exact supported_of_builtin g (hb g hg)
  have hg : getFields (.Struct fields) = (some (storeAll (fields.map Prod.fst) ⟨[]⟩), none) :=
    (getFields_struct fields).trans (getFieldsLoop_ok _ _ hsup)
  refine ⟨⟨_, hg⟩, fun fv hfv => valueStringer_builtin sprintfF fv (hb fv hfv), ?_⟩
  have hloop := doFilledFormLoop_ok sprintfF (storeAll (fields.map Prod.fst) ⟨[]⟩)
    (.Struct fields) (range (storeAll (fields.map Prod.fst) ⟨[]⟩)) (by
      intro n hn
      have hkey : n ∈ (storeAll (fields.map Prod.fst) ⟨[]⟩).keys :=
        (hrange _).subset hn
      rw [mem_keys_storeAll] at hkey
      have hname : n ∈ fieldNamesOf fields := by
        rcases hkey with hkey | hkey
        · simp [GoMap.keys] at hkey
        · simpa [fieldNamesOf, List.map_map, Function.comp_def] using hkey
      obtain ⟨fv, hfv, hval⟩ := fieldByName_mem fields n hname
      simp only [goValueFieldByName, hval]
      exact valueStringer_builtin sprintfF fv (hb fv hfv))
  simp [doFilledForm, hg, goValueKind, hloop]

/-- C17, on the value of `TestDoFillHTMLReturnsExpectedHTML`, enumerated from
its fourth key. -/
theorem doFilledForm_builtin_witness :
    (∃ m, getFields testFilledValue = (some m, none)) ∧
    (doFilledForm (fun _ => "") (rangeRotated 3) testFilledValue).2 = none :=
  ⟨(doFilledForm_builtin (fun _ => "") (rangeRotated 3) (rangeRotated_valid 3)
      (formFields "Horacio" "Duran" "horacio.duran@gmail.com" "http://perri.to"
        "+555555555" "a big secret" 32) (by decide)).1,
   (doFilledForm_builtin (fun _ => "") (rangeRotated 3) (rangeRotated_valid 3)
      (formFields "Horacio" "Duran" "horacio.duran@gmail.com" "http://perri.to"
        "+555555555" "a big secret" 32) (by decide)).2.2⟩

/-- C19: `valueStringer` reports `ok` exactly for the kinds `Int`, `Int8`,
`Int16`, `Int32`, `Int64`, `Uint8`, `Uint16`, `Uint32`, `Uint64`, `Float32`,
`Float64` and `String`, and returns `("", false)` for every other kind (`Uint`,
`Uintptr` and `Bool` among them); for the integer kinds the string is the
base-10 representation of the value, and for `String` it is the value itself. -/
theorem valueStringer_kinds (sprintfF : Float64 → String) (value : Value) :
    ((valueStringer sprintfF value).2 = true ↔ valueKind value ∈ stringableKinds) ∧
    (valueKind value ∉ stringableKinds → valueStringer sprintfF value = ("", false)) ∧
    (valueKind value ∈ [Kind.Int, Kind.Int8, Kind.Int16, Kind.Int32, Kind.Int64] →
      (valueStringer sprintfF value).1 = toString (valueInt value) ∧
      denotesDecimal (valueStringer sprintfF value).1 (valueInt value)) ∧
    (valueKind value ∈ [Kind.Uint8, Kind.Uint16, Kind.Uint32, Kind.Uint64] →
      (valueStringer sprintfF value).1 = toString (valueUint value) ∧
      denotesDecimal (valueStringer sprintfF value).1 (valueUint value)) ∧
    (valueKind value = Kind.String →
      (valueStringer sprintfF value).1 = valueString value) := by
  have hnat : ∀ n : Nat, toString ((n : Nat) : Int) = toString n := fun _ => rfl
  have hden : ∀ n : Nat, denotesDecimal (toString n) (n : Int) := denotesDecimal_natRepr
  cases h : valueKind value <;>
    simp [valueStringer, h, stringableKinds, sprintfD, denotesDecimal_toString, hnat, hden]

/-- C19, on an `int8`, a `uint16`, a string, a plain `uint` and a `bool`. -/
theorem valueStringer_kinds_witness :
    valueStringer (fun _ => "") (.int Kind.Int8 rfl (-12)) = ("-12", true) ∧
    denotesDecimal (valueStringer (fun _ => "") (.int Kind.Int8 rfl (-12))).1
      (valueInt (.int Kind.Int8 rfl (-12))) ∧
    valueStringer (fun _ => "") (.uint Kind.Uint16 rfl 65535) = ("65535", true) ∧
    valueStringer (fun _ => "") (.str "<a href=\"x\">") = ("<a href=\"x\">", true) ∧
    valueStringer (fun _ => "") (.uint Kind.Uint rfl 7) = ("", false) ∧
    valueStringer (fun _ => "") (.plain Kind.Bool rfl) = ("", false) :=
  ⟨by decide,
   ((valueStringer_kinds (fun _ => "") (.int Kind.Int8 rfl (-12))).2.2.1 (by decide)).2,
   by decide, by decide,
   (valueStringer_kinds (fun _ => "") (.uint Kind.Uint rfl 7)).2.1 (by decide),
   (valueStringer_kinds (fun _ => "") (.plain Kind.Bool rfl)).2.1 (by decide)⟩

end Structforms
